import Mathlib

/-!
# Dechora bookmarklet: the heuristic extraction engine

A shallow embedding of `src/dechora.js` (the extraction engine: text scoring,
card detection, local and remote metadata, merge) and theorems about it.

Conventions of the embedding

* A JavaScript string is a `Str`, a list of Unicode scalar values; its
  `length` property is `jsLength` (UTF-16 code units).
* A JavaScript value that a metadata field can hold is a `Val`:
  `undefined`, `null` or a string.  Reading a property that an object does
  not have gives `undefined`.
* Built-ins of the browser that are not part of the source file
  (`String.prototype.toLowerCase`, `JSON.parse`, `new URL`, `fetch` with
  `DOMParser`) are fields of a `Host` record passed explicitly.
* A `forEach` / `for … of` loop with mutable locals is a left fold over the
  list with the locals as accumulator; `-Infinity` is `none : Option Int`.
-/

namespace Dechora

/-! ## Strings -/

/-- A JavaScript string, as the list of its Unicode scalar values. -/
abbrev Str := List Char

/-- The `length` property of a string: the number of UTF-16 code units. -/
def jsLength : Str → Nat
  | [] => 0
  | c :: cs => (if c.toNat < 65536 then 1 else 2) + jsLength cs

/-- The characters matched by `\s` in a regular expression, which are also
the characters removed by `trim` (white space and line terminators). -/
def isSpace (c : Char) : Bool :=
  let n := c.toNat
  (9 ≤ n && n ≤ 13) || n == 32 || n == 160 || n == 5760 ||
  (8192 ≤ n && n ≤ 8202) || n == 8232 || n == 8233 || n == 8239 ||
  n == 8287 || n == 12288 || n == 65279

/-- The replacement `replace(/\s+/g, " ")`: every maximal run of white space
becomes one space.  The flag says that the previous character was white
space, so the run has already produced its space. -/
def collapseWs : Bool → Str → Str
  | _, [] => []
  | prev, c :: cs =>
    if isSpace c then
      (if prev then collapseWs true cs else ' ' :: collapseWs true cs)
    else c :: collapseWs false cs

/-- The method `trim`. -/
def trim (s : Str) : Str :=
  ((s.dropWhile isSpace).reverse.dropWhile isSpace).reverse

/-- The method `includes`, and an unanchored regular expression that is a plain
literal: `p` occurs in the string as a contiguous block. -/
def includes (p : Str) : Str → Bool
  | [] => p.isEmpty
  | c :: cs => p.isPrefixOf (c :: cs) || includes p cs

/-- The case folding a regular expression with flag `i` (and without flag `u`)
applies to both pattern and input characters.  The engine folds through
upper case and never maps a non-ASCII character to an ASCII one; on the
letters of the patterns of this program (ASCII letters, `ö`, `ä`) the
characters folded together are exactly the letter and its capital.  Basic
Latin and Latin-1 letters are folded here, every other character is left as
it is, which no pattern of this program can tell apart from the engine. -/
def canonI (c : Char) : Char :=
  let n := c.toNat
  if (97 ≤ n && n ≤ 122) || (224 ≤ n && n ≤ 254 && n != 247) then
    Char.ofNat (n - 32)
  else c

/-- The test `/a|b|…/i.test(s)` for literal alternatives: some alternative
occurs in `s` up to case folding. -/
def testAnyI (alts : List Str) (s : Str) : Bool :=
  alts.any fun a => includes (a.map canonI) (s.map canonI)

/-- The character class `\d`. -/
def isDigit (c : Char) : Bool :=
  let n := c.toNat
  48 ≤ n && n ≤ 57

/-- The character class `[A-ZÅÄÖ]`. -/
def isCapLetter (c : Char) : Bool :=
  let n := c.toNat
  (65 ≤ n && n ≤ 90) || n == 197 || n == 196 || n == 214

/-- The character class `[a-zA-ZÅÄÖåäö]`. -/
def isLetter (c : Char) : Bool :=
  let n := c.toNat
  (97 ≤ n && n ≤ 122) || isCapLetter c || n == 229 || n == 228 || n == 246

/-- The lower-case mapping on Basic Latin and Latin-1 capitals; every other
character is left as it is.  It is the host mapping used when a definition
is evaluated on a concrete page. -/
def lowerLatin (s : Str) : Str :=
  s.map fun c =>
    let n := c.toNat
    if (65 ≤ n && n ≤ 90) || (192 ≤ n && n ≤ 222 && n != 215) then
      Char.ofNat (n + 32)
    else c

/-! ## Values and records -/

/-- A value a metadata field can hold. -/
inductive Val where
  | undefined
  | null
  | str (s : Str)
  deriving DecidableEq

/-- Truthiness: `undefined`, `null` and the empty string are falsy. -/
def Val.truthy : Val → Bool
  | .str (_ :: _) => true
  | _ => false

/-- The operator `a || b`. -/
def Val.or (a b : Val) : Val := if a.truthy then a else b

/-- A value that is `null` or `undefined`. -/
def Val.absent : Val → Bool
  | .undefined => true
  | .null => true
  | .str _ => false

/-- A string converted to a value by `s || null`. -/
def strOrNull (s : Str) : Val := (Val.str s).or .null

/-- An object read through the properties `productName`, `productCategory`
and `manufacturer`; a property the object does not have reads `undefined`. -/
structure Meta where
  productName : Val
  productCategory : Val
  manufacturer : Val
  deriving DecidableEq

/-- The second argument of `mergeMeta`, read through the three properties and
their aliases `name`, `category` and `brand`. -/
structure Extra where
  productName : Val
  name : Val
  productCategory : Val
  category : Val
  manufacturer : Val
  brand : Val
  deriving DecidableEq

/-- The function `mergeMeta(base, extra)`. -/
def mergeMeta (base : Meta) (extra : Extra) : Meta :=
  { productName :=
      ((extra.productName.or extra.name).or base.productName).or .null
    productCategory := (extra.productCategory.or extra.category).or .null
    manufacturer :=
      ((extra.manufacturer.or extra.brand).or base.manufacturer).or .null }

/-! ## Documents -/

/-- A node of a document tree: a text node, or an element with its local
name (lower case, as the HTML parser produces it), its attributes in source
order and its children.  Comments carry no text and match no selector, so
they are left out. -/
inductive Node where
  | text (s : Str)
  | elem (tag : Str) (attrs : List (Str × Str)) (kids : List Node)

mutual
/-- Equality of nodes is decidable. -/
def Node.decEq : (a b : Node) → Decidable (a = b)
  | .text s, .text t =>
    if h : s = t then isTrue (by rw [h]) else isFalse (fun e => h (by injection e))
  | .text _, .elem _ _ _ => isFalse (fun e => by injection e)
  | .elem _ _ _, .text _ => isFalse (fun e => by injection e)
  | .elem t1 a1 k1, .elem t2 a2 k2 =>
    if ht : t1 = t2 then
      if ha : a1 = a2 then
        match Node.decEqList k1 k2 with
        | isTrue hk => isTrue (by rw [ht, ha, hk])
        | isFalse hk => isFalse (fun e => hk (by injection e))
      else isFalse (fun e => ha (by injection e))
    else isFalse (fun e => ht (by injection e))
/-- Equality of lists of nodes is decidable. -/
def Node.decEqList : (as bs : List Node) → Decidable (as = bs)
  | [], [] => isTrue rfl
  | [], _ :: _ => isFalse (fun e => by injection e)
  | _ :: _, [] => isFalse (fun e => by injection e)
  | a :: as, b :: bs =>
    match Node.decEq a b with
    | isTrue h1 =>
      match Node.decEqList as bs with
      | isTrue h2 => isTrue (by rw [h1, h2])
      | isFalse h2 => isFalse (fun e => h2 (by injection e))
    | isFalse h1 => isFalse (fun e => h1 (by injection e))
end

instance : DecidableEq Node := Node.decEq

mutual
/-- The property `textContent`: the text of all descendant text nodes, in
document order. -/
def textContent : Node → Str
  | .text s => s
  | .elem _ _ kids => textContentList kids
/-- The property `textContent` over a list of siblings. -/
def textContentList : List Node → Str
  | [] => []
  | n :: ns => textContent n ++ textContentList ns
end

/-- Whether the node is an element. -/
def Node.isElem : Node → Bool
  | .text _ => false
  | .elem _ _ _ => true

mutual
/-- The elements strictly below a node, in document order. -/
def descendants : Node → List Node
  | .text _ => []
  | .elem _ _ kids => descendantsList kids
/-- The elements in a list of siblings and below them, in document order. -/
def descendantsList : List Node → List Node
  | [] => []
  | n :: ns => (if n.isElem then [n] else []) ++ descendants n ++ descendantsList ns
end

/-- The method `getAttribute` on an attribute list: `none` is `null`. -/
def attrOf (attrs : List (Str × Str)) (a : Str) : Option Str :=
  (attrs.find? fun kv => kv.1 == a).map fun kv => kv.2

/-- The method `getAttribute`. -/
def getAttribute : Node → Str → Option Str
  | .text _, _ => none
  | .elem _ attrs _, a => attrOf attrs a

/-- The method `split` with a single-character separator class: the pieces
between separators, empty pieces included. -/
def splitOn (sep : Char → Bool) : Str → List Str
  | [] => [[]]
  | c :: cs =>
    match splitOn sep cs with
    | [] => [[]]
    | t :: ts => if sep c then [] :: t :: ts else (c :: t) :: ts

/-- ASCII white space, which separates the tokens of a `class` attribute. -/
def isAsciiWs (c : Char) : Bool :=
  let n := c.toNat
  n == 9 || n == 10 || n == 12 || n == 13 || n == 32

/-- The class tokens of an attribute list. -/
def classTokens (attrs : List (Str × Str)) : List Str :=
  match attrOf attrs "class".toList with
  | none => []
  | some v => (splitOn isAsciiWs v).filter fun t => !t.isEmpty

/-- ASCII lower case of a character, used where selectors compare attribute
values without regard to ASCII case. -/
def asciiLower (c : Char) : Char :=
  let n := c.toNat
  if 65 ≤ n && n ≤ 90 then Char.ofNat (n + 32) else c

/-- A simple selector: a type selector, a class selector, or an attribute
selector (presence, equality, equality up to ASCII case, substring). -/
inductive Simple where
  | tag (t : Str)
  | cls (c : Str)
  | hasAttr (a : Str)
  | attrEq (a v : Str)
  | attrEqI (a v : Str)
  | attrHas (a v : Str)

/-- Whether an element with the given name and attributes matches a simple
selector.  Class tokens are compared exactly (a document in no-quirks mode). -/
def matchSimple (tag : Str) (attrs : List (Str × Str)) : Simple → Bool
  | .tag t => tag == t
  | .cls c => (classTokens attrs).contains c
  | .hasAttr a => (attrOf attrs a).isSome
  | .attrEq a v => attrOf attrs a == some v
  | .attrEqI a v => (attrOf attrs a).map (List.map asciiLower) == some (v.map asciiLower)
  | .attrHas a v =>
    match attrOf attrs a with
    | none => false
    | some w => includes v w

/-- A compound selector such as `a[href]`: all its simple selectors match. -/
abbrev Compound := List Simple

/-- A selector list such as `.price, [data-price]`: one of its compound
selectors matches. -/
abbrev Selector := List Compound

/-- The method `matches`. -/
def matchesSel (sel : Selector) : Node → Bool
  | .text _ => false
  | .elem tag attrs _ => sel.any fun c => c.all (matchSimple tag attrs)

/-- The method `querySelectorAll` on an element: the matching elements
strictly below it, in document order. -/
def querySelectorAll (scope : Node) (sel : Selector) : List Node :=
  (descendants scope).filter (matchesSel sel)

/-- The method `querySelector` on an element. -/
def querySelector (scope : Node) (sel : Selector) : Option Node :=
  (querySelectorAll scope sel).head?

/-- The method `closest` of an element given by its chain of inclusive
ancestors (the element first, then its parent, and so on upwards). -/
def closest (chain : List Node) (sel : Selector) : Option Node :=
  chain.find? (matchesSel sel)

/-- The inclusive ancestors of the node reached from `n` by the child
indices of `path`, the reached node first; `none` when the path leaves the
tree. -/
def chainAt : Node → List Nat → List Node → Option (List Node)
  | n, [], acc => some (n :: acc)
  | .text _, _ :: _, _ => none
  | .elem tag attrs kids, i :: is, acc =>
    match kids.get? i with
    | none => none
    | some k => chainAt k is (.elem tag attrs kids :: acc)

/-- A fetched document: its root element and the value of `document.title`. -/
structure Doc where
  documentElement : Node
  title : Str
  deriving DecidableEq

/-- The method `querySelectorAll` on a document: the root element is a
candidate too. -/
def Doc.querySelectorAll (d : Doc) (sel : Selector) : List Node :=
  (d.documentElement :: descendants d.documentElement).filter (matchesSel sel)

/-- The method `querySelector` on a document. -/
def Doc.querySelector (d : Doc) (sel : Selector) : Option Node :=
  (d.querySelectorAll sel).head?

/-- A value produced by `JSON.parse`.  Of a number only its being zero is
observed by this program. -/
inductive Json where
  | null
  | bool (b : Bool)
  | num (q : Rat)
  | str (s : Str)
  | arr (xs : List Json)
  | obj (kvs : List (Str × Json))

/-- The browser built-ins the engine calls.
* `toLowerCase`: the method of that name;
* `jsonParse`: `JSON.parse`, `none` when it throws;
* `resolveUrl`: `new URL(href, window.location.href).toString()`, `none`
  when it throws;
* `fetchDoc`: `fetch` followed by `DOMParser`, `none` when the response is
  not `ok` or any step throws;
* `locationHref`: `window.location.href`. -/
structure Host where
  toLowerCase : Str → Str
  jsonParse : Str → Option Json
  resolveUrl : Str → Option Str
  fetchDoc : Str → Option Doc
  locationHref : Str

/-! ## Utilities -/

/-- The function `textFrom(el)`. -/
def textFrom : Option Node → Str
  | none => []
  | some el => trim (collapseWs false (textContent el))

/-- The alternatives of the currency pattern `/(kr|sek|nok|dkk|eur|usd|\$|€|£)/i`. -/
def currencyAlts : List Str :=
  ["kr", "sek", "nok", "dkk", "eur", "usd", "$", "€", "£"].map String.toList

/-- The alternatives of the pattern `/add to cart|buy now|köp nu|lägg i varukorg/i`. -/
def ctaAlts : List Str :=
  ["add to cart", "buy now", "köp nu", "lägg i varukorg"].map String.toList

/-- The local `hasCurrency`: the currency pattern tested on the lower-cased text. -/
def hasCurrency (h : Host) (t : Str) : Bool :=
  testAnyI currencyAlts (h.toLowerCase t)

/-- The call-to-action pattern tested on the lower-cased text. -/
def hasCta (h : Host) (t : Str) : Bool :=
  testAnyI ctaAlts (h.toLowerCase t)

/-- The count `(t.match(/\d/g) || []).length`. -/
def digitCount (t : Str) : Nat := (t.filter isDigit).length

/-- The length of `t.replace(/[^a-zA-ZÅÄÖåäö]/g, "")`. -/
def letterCount (t : Str) : Nat := (t.filter isLetter).length

/-- The count `(t.match(/[A-ZÅÄÖ]/g) || []).length`. -/
def capsCount (t : Str) : Nat := (t.filter isCapLetter).length

/-- The score `pickBestText` gives to a text that passed its filters.  The
comparison `caps / letters.length > 0.9` is taken over the rationals, which
agrees with the floating-point one for every string a browser can hold. -/
def scoreText (h : Host) (role : Str) (t : Str) : Int :=
  let len : Int := jsLength t
  let ideal : Int := if role = "category".toList then 30 else 50
  let s0 : Int := -((len - ideal).natAbs : Int)
  let nameOrBrand : Bool := role == "name".toList || role == "brand".toList
  let s1 := if nameOrBrand && hasCurrency h t then s0 - 12 else s0
  let s2 := if nameOrBrand && decide (4 ≤ digitCount t) then s1 - 8 else s1
  let s3 := if hasCta h t then s2 - 20 else s2
  let s4 :=
    if decide (3 ≤ digitCount t) && hasCurrency h t && role == "category".toList then s3 - 8
    else s3
  if decide (4 ≤ letterCount t) && decide (9 * letterCount t < 10 * capsCount t) then s4 - 4
  else s4

/-- The mutable locals `best` and `bestScore` of the scoring loops;
`bestScore = none` is `-Infinity`. -/
structure Best where
  best : Str
  bestScore : Option Int
  deriving DecidableEq

/-- The comparison `score > bestScore`. -/
def beats (score : Int) : Option Int → Bool
  | none => true
  | some b => decide (b < score)

/-- One round of the `forEach` of `pickBestText`.  A `maxLen` of `0` is
falsy and switches the length filter off. -/
def pickStep (h : Host) (maxLen : Nat) (role : Str) (acc : Best) (n : Node) : Best :=
  let t := textFrom (some n)
  if t.isEmpty then acc
  else if maxLen != 0 && decide (maxLen < jsLength t) then acc
  else
    let score := scoreText h role t
    if beats score acc.bestScore then { best := t, bestScore := some score } else acc

/-- The function `pickBestText(nodes, maxLen, role)`. -/
def pickBestText (h : Host) (nodes : List Node) (maxLen : Nat) (role : Str) : Str :=
  (nodes.foldl (pickStep h maxLen role) { best := [], bestScore := none }).best

/-! ## Product card detection and local metadata -/

/-- A compound selector made of one class selector. -/
def selCls (c : String) : Compound := [.cls c.toList]

/-- A compound selector made of one attribute-presence selector. -/
def selAttr (a : String) : Compound := [.hasAttr a.toList]

/-- A compound selector made of one type selector. -/
def selTag (t : String) : Compound := [.tag t.toList]

/-- The function `collectNameCandidates(scope)`. -/
def collectNameCandidates : Option Node → List Node
  | none => []
  | some scope =>
    querySelectorAll scope
        [selAttr "data-product-name", [.attrEq "itemprop".toList "name".toList]] ++
      querySelectorAll scope
        [selCls "product-title", selCls "product_name", selCls "product-name",
         selCls "ProductName", selCls "product__title", selCls "card-title", selCls "title",
         selCls "product-title__text", selCls "productTitle"] ++
      querySelectorAll scope [selTag "h1", selTag "h2", selTag "h3", selTag "h4"]

/-- The function `collectBrandCandidates(scope)`. -/
def collectBrandCandidates : Option Node → List Node
  | none => []
  | some scope =>
    querySelectorAll scope
        [selAttr "data-product-brand", selAttr "data-brand",
         [.attrEq "itemprop".toList "brand".toList],
         [.attrEq "itemprop".toList "manufacturer".toList]] ++
      querySelectorAll scope
        [selCls "brand", selCls "product-brand", selCls "ProductBrand", selCls "manufacturer",
         selCls "byline", selCls "product__brand", selCls "product-vendor", selCls "vendor"]

/-- The function `priceCandidates(scope)`. -/
def priceCandidates : Option Node → List Node
  | none => []
  | some scope =>
    querySelectorAll scope
      [selCls "price", selCls "product-price", selAttr "data-price",
       selAttr "data-product-price", selCls "Price", selCls "current-price", selCls "money"]

/-- One round of the `forEach` of `extractPriceText`. -/
def priceStep (h : Host) (acc : Best) (n : Node) : Best :=
  let t := textFrom (some n)
  if t.isEmpty then acc
  else if !hasCurrency h t || decide (digitCount t < 2) then acc
  else
    let len : Int := jsLength t
    let s0 : Int := -((len - 10).natAbs : Int)
    let s1 := if hasCurrency h t then s0 + 5 else s0
    let score := if decide (3 ≤ digitCount t) then s1 + 3 else s1
    if beats score acc.bestScore then { best := t, bestScore := some score } else acc

/-- The function `extractPriceText(scope)`. -/
def extractPriceText (h : Host) (scope : Option Node) : Str :=
  let nodes := priceCandidates scope
  if nodes.isEmpty then []
  else (nodes.foldl (priceStep h) { best := [], bestScore := none }).best

/-- The function `looksLikeGridProductCard(root)`. -/
def looksLikeGridProductCard (h : Host) : Option Node → Bool
  | none => false
  | some root =>
    let price := extractPriceText h (some root)
    let nameNodes := collectNameCandidates (some root)
    let name := pickBestText h nameNodes 140 "name".toList
    !price.isEmpty && !name.isEmpty

/-- An image element of the page: the element itself, its ancestors from
the parent upwards, and its properties `currentSrc` and `src`. -/
structure Img where
  self : Node
  ancestors : List Node
  currentSrc : Str
  src : Str
  deriving DecidableEq

/-- The inclusive ancestors of the image, the image first. -/
def Img.chain (img : Img) : List Node := img.self :: img.ancestors

/-- The image at the end of a path of child indices in a page. -/
def imgAt (page : Node) (path : List Nat) (currentSrc src : Str) : Option Img :=
  match chainAt page path [] with
  | some (self :: ancestors) => some ⟨self, ancestors, currentSrc, src⟩
  | _ => none

/-- An optional string read by `x || ""`. -/
def orEmpty : Option Str → Str
  | none => []
  | some s => s

/-- The function `getOriginalUrl(img)`.  The property
`dataset.dechoraOriginalUrl` is the attribute `data-dechora-original-url`;
the function also stores a non-empty result there, an annotation that no
selector of the engine reads. -/
def getOriginalUrl (img : Img) : Str :=
  let memo := orEmpty (getAttribute img.self "data-dechora-original-url".toList)
  if !memo.isEmpty then memo
  else
    let lazy1 := orEmpty (getAttribute img.self "data-src".toList)
    let lazy2 := orEmpty (getAttribute img.self "data-original".toList)
    let lazySet := orEmpty (getAttribute img.self "data-srcset".toList)
    let lazySetFirst := if !lazySet.isEmpty then lazySet.takeWhile (fun c => !isSpace c) else []
    if !img.currentSrc.isEmpty then img.currentSrc
    else if !img.src.isEmpty then img.src
    else if !lazy1.isEmpty then lazy1
    else if !lazy2.isEmpty then lazy2
    else if !lazySetFirst.isEmpty then lazySetFirst
    else []

/-- The character class `\w`. -/
def isWordChar (c : Char) : Bool :=
  let n := c.toNat
  (97 ≤ n && n ≤ 122) || (65 ≤ n && n ≤ 90) || (48 ≤ n && n ≤ 57) || n == 95

/-- The test `/\bw\b/i.test(s)` for a literal word `w` of word characters:
`w` occurs up to case folding, not preceded and not followed by a word
character.  The flag says that the previous character is a word character. -/
def wordTestI (w : Str) : Bool → Str → Bool
  | _, [] => false
  | prev, c :: cs =>
    (!prev && (w.map canonI).isPrefixOf ((c :: cs).map canonI) &&
        !(match (c :: cs).drop w.length with
          | [] => false
          | d :: _ => isWordChar d)) ||
      wordTestI w (isWordChar c) cs

/-- The class test in the loop of `findProductRoot`, on
`(node.className || "").toString()`. -/
def classLooksLikeCard (node : Node) : Bool :=
  let className := orEmpty (getAttribute node "class".toList)
  wordTestI "product".toList false className || wordTestI "card".toList false className ||
    wordTestI "item".toList false className || wordTestI "tile".toList false className

/-- The selector `a[href]`. -/
def linkSel : Selector := [[.tag "a".toList, .hasAttr "href".toList]]

/-- The function `findProductRoot(img)`; `none` is `null`. -/
def findProductRoot (img : Img) : Option Node :=
  match (closest img.chain
            [selAttr "data-product-id", selAttr "data-product-name",
             selAttr "data-product-brand", selAttr "data-product-category"]).orElse
          (fun _ => closest img.chain [[.attrHas "itemtype".toList "Product".toList]]) with
  | some root => some root
  | none =>
    match closest img.chain
            [selCls "product-card", selCls "product", selCls "product-item",
             selCls "productTile", selCls "product-tile", selCls "product__card",
             selCls "grid__item", selCls "productBox", selCls "ProductTile"] with
    | some root => some root
    | none =>
      match closest img.chain linkSel with
      | some linkRoot => some linkRoot
      | none =>
        match (img.ancestors.take 5).find? classLooksLikeCard with
        | some node => some node
        | none => img.ancestors.head?

/-- The function `findProductLinkFromCard(root, img)`; `none` is `null`. -/
def findProductLinkFromCard (h : Host) (root : Option Node) (img : Option Img) :
    Option Str :=
  let candidate :=
    (root.bind fun r => querySelector r linkSel).orElse
      (fun _ => img.bind fun i => closest i.chain linkSel)
  match candidate with
  | none => none
  | some c =>
    match getAttribute c "href".toList with
    | none => none
    | some href => if href.isEmpty then none else h.resolveUrl href

/-- The object `meta` of `extractLocalMetaFromCard`. -/
structure LocalMeta where
  productName : Val
  manufacturer : Val
  deriving DecidableEq

/-- The test `/^image|picture|product$/i.test(alt)`: the text starts with
`image`, or contains `picture`, or ends with `product`, up to case. -/
def altIsGeneric (alt : Str) : Bool :=
  ("image".toList.map canonI).isPrefixOf (alt.map canonI) ||
    includes ("picture".toList.map canonI) (alt.map canonI) ||
    ("product".toList.map canonI).isSuffixOf (alt.map canonI)

/-- The function `extractLocalMetaFromCard(root, img)`. -/
def extractLocalMetaFromCard (h : Host) (root : Option Node) (img : Option Img) :
    LocalMeta :=
  match root with
  | none => { productName := .null, manufacturer := .null }
  | some r =>
    let nameNodes := collectNameCandidates (some r)
    let brandNodes := collectBrandCandidates (some r)
    let name := pickBestText h nameNodes 140 "name".toList
    let brand := pickBestText h brandNodes 80 "brand".toList
    let n1 : Val := if !name.isEmpty then .str name else .null
    let m1 : Val := if !brand.isEmpty then .str brand else .null
    let n2 : Val :=
      match img with
      | none => n1
      | some i =>
        if !n1.truthy then
          let alt := trim (orEmpty (getAttribute i.self "alt".toList))
          if !alt.isEmpty && decide (jsLength alt ≤ 200) && !altIsGeneric alt then .str alt
          else n1
        else n1
    let dName := getAttribute r "data-product-name".toList
    let dBrand :=
      match getAttribute r "data-product-brand".toList with
      | some b => if !b.isEmpty then some b else getAttribute r "data-brand".toList
      | none => getAttribute r "data-brand".toList
    let n3 : Val := if !(orEmpty dName).isEmpty && !n2.truthy then .str (orEmpty dName) else n2
    let m2 : Val := if !(orEmpty dBrand).isEmpty && !m1.truthy then .str (orEmpty dBrand) else m1
    { productName := n3, manufacturer := m2 }

/-! ## JSON-LD and product page parsing -/

/-- Truthiness of a parsed JSON value. -/
def Json.truthy : Json → Bool
  | .null => false
  | .bool b => b
  | .num q => decide (q ≠ 0)
  | .str s => !s.isEmpty
  | .arr _ => true
  | .obj _ => true

/-- Reading the property `k` of a value that is an object or an array as far
as `typeof` tells; `none` is `undefined`.  The keys of a parsed object are
distinct; an array has none of the keys this program reads. -/
def Json.get : Json → Str → Option Json
  | .obj kvs, k => (kvs.find? fun kv => kv.1 == k).map fun kv => kv.2
  | _, _ => none

/-- Truthiness of a property that may be `undefined`. -/
def propTruthy : Option Json → Bool
  | none => false
  | some j => j.truthy

/-- The operator `a || b` on properties that may be `undefined`. -/
def propOr (a b : Option Json) : Option Json := if propTruthy a then a else b

/-- The test `typeof x === "string"`, giving the string. -/
def asString : Option Json → Option Str
  | some (.str s) => some s
  | _ => none

/-- The object `result` of the three sub-extractors. -/
structure Fields where
  name : Val
  brand : Val
  category : Val
  deriving DecidableEq

/-- The test `isProduct` on an object that passed the `typeof` filter. -/
def isProduct (h : Host) (obj : Json) : Bool :=
  let type : Json :=
    match propOr (propOr (obj.get "@type".toList) (obj.get "type".toList))
        (some (.str [])) with
    | some t => t
    | none => .str []
  let types : List Json :=
    match type with
    | .arr xs => xs
    | t => [t]
  types.any fun t =>
    match t with
    | .str s => includes "product".toList (h.toLowerCase s)
    | _ => false

/-- The body of the loop over `candidates` in `parseJsonLdProductFromDoc`. -/
def jsonLdStep (h : Host) (result : Fields) (obj : Json) : Fields :=
  match obj with
  | .null => result
  | .bool _ => result
  | .num _ => result
  | .str _ => result
  | obj =>
    if !isProduct h obj then result
    else
      let r1 : Fields :=
        match asString (obj.get "name".toList) with
        | some s => if !result.name.truthy then { result with name := .str s } else result
        | none => result
      let r2 : Fields :=
        match asString (obj.get "category".toList) with
        | some s => if !r1.category.truthy then { r1 with category := .str s } else r1
        | none => r1
      let brandObj := propOr (obj.get "brand".toList) (obj.get "manufacturer".toList)
      if propTruthy brandObj then
        match brandObj with
        | some (.str s) => if !r2.brand.truthy then { r2 with brand := .str s } else r2
        | some (.obj kvs) =>
          match asString ((Json.obj kvs).get "name".toList) with
          | some s => if !r2.brand.truthy then { r2 with brand := .str s } else r2
          | none => r2
        | _ => r2
      else r2

/-- The body of the loop over `scripts` in `parseJsonLdProductFromDoc`: a
block whose text is blank or does not parse is passed over. -/
def scriptStep (h : Host) (result : Fields) (script : Node) : Fields :=
  let text := textContent script
  if (trim text).isEmpty then result
  else
    match h.jsonParse text with
    | none => result
    | some data =>
      let candidates : List Json :=
        match data with
        | .arr xs => xs
        | d => [d]
      candidates.foldl (jsonLdStep h) result

/-- The selector `script[type="application/ld+json"]`; values of the `type`
attribute are compared without regard to ASCII case in an HTML document. -/
def ldJsonSel : Selector :=
  [[.tag "script".toList, .attrEqI "type".toList "application/ld+json".toList]]

/-- The function `parseJsonLdProductFromDoc(doc)`.  The text of a script is
its `textContent`, which is also its `innerText` in a parsed document that
is not rendered. -/
def parseJsonLdProductFromDoc (h : Host) (doc : Doc) : Fields :=
  (doc.querySelectorAll ldJsonSel).foldl (scriptStep h)
    { name := .null, brand := .null, category := .null }

/-- A selector `meta[a="v"]`. -/
def metaSel (a v : String) : Selector := [[.tag "meta".toList, .attrEq a.toList v.toList]]

/-- The expression `el.getAttribute("content") || null` for an element found. -/
def contentOf (el : Node) : Val := strOrNull (orEmpty (getAttribute el "content".toList))

/-- The function `parseHeadMetaFromDoc(doc)`. -/
def parseHeadMetaFromDoc (doc : Doc) : Fields :=
  let brandMeta :=
    (((doc.querySelector (metaSel "property" "product:brand")).orElse
        fun _ => doc.querySelector (metaSel "name" "product:brand")).orElse
        fun _ => doc.querySelector (metaSel "name" "brand")).orElse
        fun _ => doc.querySelector (metaSel "property" "og:site_name")
  let catMeta :=
    ((doc.querySelector (metaSel "property" "product:category")).orElse
        fun _ => doc.querySelector (metaSel "name" "product:category")).orElse
        fun _ => doc.querySelector (metaSel "name" "category")
  let ogTitle :=
    (doc.querySelector (metaSel "property" "og:title")).orElse
      fun _ => doc.querySelector (metaSel "name" "og:title")
  { brand := match brandMeta with
      | some el => contentOf el
      | none => .null
    category := match catMeta with
      | some el => contentOf el
      | none => .null
    name := match ogTitle with
      | some el => contentOf el
      | none => .null }

/-- The character class `[\|\-–»]` the title is split on. -/
def isTitleSep (c : Char) : Bool :=
  let n := c.toNat
  n == 124 || n == 45 || n == 8211 || n == 187

/-- The object returned by `parseTitleFromDoc`. -/
structure TitleMeta where
  name : Val
  brand : Val
  deriving DecidableEq

/-- The array `parts` of `parseTitleFromDoc`. -/
def titleParts (title : Str) : List Str :=
  ((splitOn isTitleSep title).map trim).filter fun p => !p.isEmpty

/-- The function `parseTitleFromDoc(doc)`. -/
def parseTitleFromDoc (h : Host) (doc : Doc) : TitleMeta :=
  let title := doc.title
  if title.isEmpty then { name := .null, brand := .null }
  else
    match titleParts title with
    | [] => { name := .null, brand := .null }
    | name :: rest =>
      let last := (name :: rest).getLast (List.cons_ne_nil name rest)
      if decide (1 < (name :: rest).length) && h.toLowerCase last != h.toLowerCase name then
        { name := .str name, brand := .str last }
      else { name := .str name, brand := .null }

/-- The cascade of `fetchProductPageMeta` over the results of the three
sub-extractors (the statements after `parseTitleFromDoc(doc)`). -/
def cascadeMeta (jsonld head : Fields) (fromTitle : TitleMeta) : Meta :=
  let n1 : Val := if jsonld.name.truthy then jsonld.name else .null
  let c1 : Val := if jsonld.category.truthy then jsonld.category else .null
  let m1 : Val := if jsonld.brand.truthy then jsonld.brand else .null
  let n2 : Val := if !n1.truthy && head.name.truthy then head.name else n1
  let c2 : Val := if !c1.truthy && head.category.truthy then head.category else c1
  let m2 : Val := if !m1.truthy && head.brand.truthy then head.brand else m1
  let n3 : Val := if !n2.truthy && fromTitle.name.truthy then fromTitle.name else n2
  let m3 : Val := if !m2.truthy && fromTitle.brand.truthy then fromTitle.brand else m2
  { productName := n3, productCategory := c2, manufacturer := m3 }

/-- The remote metadata extractor on a parsed document: the three
sub-extractors and the cascade. -/
def remoteMetaFromDoc (h : Host) (doc : Doc) : Meta :=
  cascadeMeta (parseJsonLdProductFromDoc h doc) (parseHeadMetaFromDoc doc)
    (parseTitleFromDoc h doc)

/-- The function `fetchProductPageMeta(productUrl)`, the promise resolved. -/
def fetchProductPageMeta (h : Host) (productUrl : Str) : Meta :=
  let blank : Meta := { productName := .null, productCategory := .null, manufacturer := .null }
  if productUrl.isEmpty then blank
  else
    match h.fetchDoc productUrl with
    | none => blank
    | some doc => remoteMetaFromDoc h doc

/-! ## Build item from image -/

/-- The object `item` of `buildItemForImage`. -/
structure Item where
  imageUrl : Str
  productName : Val
  productCategory : Val
  manufacturer : Val
  pageUrl : Str
  productPageUrl : Val
  deriving DecidableEq

/-- The local metadata object read through the three metadata properties:
it has no property `productCategory`, which therefore reads `undefined`.
This is what the copy `{ ...localMeta }` gives to `finalMeta`. -/
def LocalMeta.toMeta (m : LocalMeta) : Meta :=
  { productName := m.productName, productCategory := .undefined, manufacturer := m.manufacturer }

/-- The function `buildItemForImage(img)`, the promise resolved; `none` is
`null`. -/
def buildItemForImage (h : Host) (img : Img) : Option Item :=
  let imageUrl := getOriginalUrl img
  if imageUrl.isEmpty then none
  else
    let root := findProductRoot img
    let localMeta := extractLocalMetaFromCard h root (some img)
    let link : Option Str :=
      if root.isSome && looksLikeGridProductCard h root then
        findProductLinkFromCard h root (some img)
      else none
    let productPageUrl : Option Str :=
      match link with
      | some u => if u.isEmpty then none else some u
      | none => none
    let finalMeta : Meta :=
      match productPageUrl with
      | some u =>
        let remoteMeta := fetchProductPageMeta h u
        mergeMeta localMeta.toMeta
          { productName := remoteMeta.productName, name := .undefined,
            productCategory := remoteMeta.productCategory, category := .undefined,
            manufacturer := remoteMeta.manufacturer, brand := .undefined }
      | none => localMeta.toMeta
    some
      { imageUrl := imageUrl
        productName := finalMeta.productName
        productCategory := finalMeta.productCategory
        manufacturer := finalMeta.manufacturer
        pageUrl := h.locationHref
        productPageUrl :=
          match productPageUrl with
          | some u => .str u
          | none => .null }

/-! ## Reference scorer

The candidate scorer as the specification words it, to be compared with
`pickBestText`. -/

/-- The score of the specification: the negative distance of the length
from the ideal length of the role, minus the penalties that apply. -/
def refScore (h : Host) (role : Str) (t : Str) : Int :=
  let ideal : Int := if role = "category".toList then 30 else 50
  let nameOrBrand : Prop := role = "name".toList ∨ role = "brand".toList
  let start : Int := -(abs ((jsLength t : Int) - ideal))
  start
    - (if hasCurrency h t = true ∧ nameOrBrand then 12 else 0)
    - (if 4 ≤ digitCount t ∧ nameOrBrand then 8 else 0)
    - (if hasCta h t = true then 20 else 0)
    - (if role = "category".toList ∧ 3 ≤ digitCount t ∧ hasCurrency h t = true then 8 else 0)
    - (if 4 ≤ letterCount t ∧ 9 * letterCount t < 10 * capsCount t then 4 else 0)

/-- The candidates of the specification: the texts that are not empty and
not longer than the maximum length, when one is given. -/
def refCandidates (texts : List Str) (limit : Option Nat) : List Str :=
  texts.filter fun t =>
    !t.isEmpty &&
      (match limit with
       | none => true
       | some m => decide (jsLength t ≤ m))

/-- The highest of a list of scores; `none` for the empty list. -/
def maxScore : List Int → Option Int
  | [] => none
  | x :: xs =>
    match maxScore xs with
    | none => some x
    | some m => some (max x m)

/-- The first text of a list with the highest score, the empty string when
the list is empty. -/
def firstBest (f : Str → Int) (cands : List Str) : Str :=
  match maxScore (cands.map f) with
  | none => []
  | some m => (cands.find? fun t => f t == m).getD []

/-- The scorer of the specification: among the candidates the one with the
highest score, the first of them when several share it, the empty string
when there is no candidate. -/
def refPickBestText (h : Host) (texts : List Str) (limit : Option Nat) (role : Str) : Str :=
  firstBest (refScore h role) (refCandidates texts limit)

/-- The first value of a list that is present and non-empty, else `null`. -/
def firstTruthy : List Val → Val
  | [] => .null
  | v :: vs => if v.truthy then v else firstTruthy vs

/-! ## Auxiliary definitions for the proofs -/

/-- The filter of `pickStep` as a predicate on the normalized text. -/
def keepText (maxLen : Nat) (t : Str) : Bool :=
  !t.isEmpty && !(maxLen != 0 && decide (maxLen < jsLength t))

/-- The update of `best` and `bestScore` by a text that passed the filter. -/
def bump (f : Str → Int) (acc : Best) (t : Str) : Best :=
  if beats (f t) acc.bestScore then { best := t, bestScore := some (f t) } else acc

/-- The state of a scoring loop after a list of texts, in closed form. -/
def settle (f : Str → Int) (acc : Best) (cs : List Str) : Best :=
  match maxScore (cs.map f) with
  | none => acc
  | some m =>
    if beats m acc.bestScore then
      { best := (cs.find? fun t => f t == m).getD [], bestScore := some m }
    else acc

/-! ## Concrete pages and hosts -/

/-- A host with the Latin lower-case mapping, no JSON parser and no network;
URLs are resolved against `https://shop.example/`. -/
def latinHost : Host :=
  { toLowerCase := lowerLatin
    jsonParse := fun _ => none
    resolveUrl := fun u => some ("https://shop.example/".toList ++ u)
    fetchDoc := fun _ => none
    locationHref := "https://shop.example/list".toList }

/-- An element from string literals. -/
def el (tag : String) (attrs : List (String × String)) (kids : List Node) : Node :=
  .elem tag.toList (attrs.map fun kv => (kv.1.toList, kv.2.toList)) kids

/-- A text node from a string literal. -/
def tx (s : String) : Node := .text s.toList

/-- The card of the specification's scenario: a `product-card` root with
the image, a `.price` node `199 kr` and an `h2` `Oak Dining Table`, and no
anchor. -/
def oakCard : Node :=
  el "div" [("class", "product-card")]
    [el "img" [("src", "oak.jpg")] [],
     el "span" [("class", "price")] [tx "199 kr"],
     el "h2" [] [tx "Oak Dining Table"]]

/-- The image of `oakCard`. -/
def oakImg : Img :=
  { self := el "img" [("src", "oak.jpg")] []
    ancestors := [oakCard]
    currentSrc := "https://shop.example/oak.jpg".toList
    src := "https://shop.example/oak.jpg".toList }

/-- The text of a structured-data block describing the product `Chair X`. -/
def chairText : Str :=
  ("\x7b\"@type\":\"Product\",\"name\":\"Chair X\",\"brand\":\"Acme\"," ++
    "\"category\":\"Furniture\"\x7d").toList

/-- The value `JSON.parse` gives for `chairText`. -/
def chairJson : Json :=
  .obj [("@type".toList, .str "Product".toList), ("name".toList, .str "Chair X".toList),
        ("brand".toList, .str "Acme".toList), ("category".toList, .str "Furniture".toList)]

/-- The script element holding `chairText`. -/
def chairScript : Node :=
  el "script" [("type", "application/ld+json")] [.text chairText]

/-- A product page whose only metadata is the structured-data block of
`Chair X`: no `meta` element and an empty title. -/
def chairDoc : Doc :=
  { documentElement := el "html" [] [el "head" [] [chairScript], el "body" [] []]
    title := [] }

/-- A host that parses `chairText` and serves `chairDoc` at
`https://shop.example/chair-x`. -/
def chairHost : Host :=
  { toLowerCase := lowerLatin
    jsonParse := fun s => if s = chairText then some chairJson else none
    resolveUrl := fun u => some ("https://shop.example/".toList ++ u)
    fetchDoc := fun u => if u = "https://shop.example/chair-x".toList then some chairDoc else none
    locationHref := "https://shop.example/list".toList }

/-! ## Geometry filter -/

/-- The constant `MIN_IMAGE_WIDTH`. -/
def MIN_IMAGE_WIDTH : Rat := 100

/-- The constant `MIN_IMAGE_HEIGHT`. -/
def MIN_IMAGE_HEIGHT : Rat := 100

/-- The constant `MAX_IMAGE_WIDTH`. -/
def MAX_IMAGE_WIDTH : Rat := 1000

/-- The constant `MAX_IMAGE_HEIGHT`. -/
def MAX_IMAGE_HEIGHT : Rat := 1000

/-- The rectangle `getBoundingClientRect()` returns, as far as the engine
reads it.  The two numbers are finite doubles, which are rationals; the
comparisons with the constants are exact. -/
structure Rect where
  width : Rat
  height : Rat
  deriving DecidableEq

/-- The computed style `window.getComputedStyle(img)`, as far as the engine
reads it. -/
structure Style where
  display : Str
  visibility : Str
  opacity : Str
  deriving DecidableEq

/-- What `isEligibleImage` reads of its argument: the node type
(`Node.ELEMENT_NODE` is `1`), the bounding rectangle and the computed style. -/
structure Rendered where
  nodeType : Nat
  rect : Rect
  style : Style
  deriving DecidableEq

/-- The test on the computed style in `isEligibleImage`.  `parseFloat` is the
built-in of that name, `none` being `NaN`. -/
def styleHidden (parseFloat : Str → Option Rat) (style : Style) : Bool :=
  style.display == "none".toList || style.visibility == "hidden".toList ||
    parseFloat (if !style.opacity.isEmpty then style.opacity else "1".toList) == some 0

/-- The function `isEligibleImage(img)`; `none` is a falsy argument. -/
def isEligibleImage (parseFloat : Str → Option Rat) : Option Rendered → Bool
  | none => false
  | some img =>
    if img.nodeType != 1 then false
    else if img.rect.width == 0 || img.rect.height == 0 then false
    else if decide (img.rect.width < MIN_IMAGE_WIDTH) ||
        decide (img.rect.height < MIN_IMAGE_HEIGHT) then false
    else if decide (MAX_IMAGE_WIDTH < img.rect.width) ||
        decide (MAX_IMAGE_HEIGHT < img.rect.height) then false
    else if styleHidden parseFloat img.style then false
    else true

/-- A `parseFloat` that knows the opacities `0`, `0.5` and `1`. -/
def parseOpacity (s : Str) : Option Rat :=
  if s = "0".toList then some 0
  else if s = "0.5".toList then some (1 / 2)
  else if s = "1".toList then some 1
  else none

/-! ## Reference searches and offers

The card locator and the structured-data sub-extractor in closed form, to be
compared with `findProductRoot` and `parseJsonLdProductFromDoc`. -/

/-- The selector of the product-identifying attributes. -/
def productAttrSel : Selector :=
  [selAttr "data-product-id", selAttr "data-product-name",
   selAttr "data-product-brand", selAttr "data-product-category"]

/-- The selector `[itemtype*="Product"]`. -/
def itemtypeSel : Selector := [[.attrHas "itemtype".toList "Product".toList]]

/-- The selector of the product-card class names. -/
def cardClassSel : Selector :=
  [selCls "product-card", selCls "product", selCls "product-item",
   selCls "productTile", selCls "product-tile", selCls "product__card",
   selCls "grid__item", selCls "productBox", selCls "ProductTile"]

/-- The first search of a list that finds an element. -/
def firstFound : List (Option Node) → Option Node
  | [] => none
  | some n :: _ => some n
  | none :: rest => firstFound rest

/-- The search order of the card locator: the nearest inclusive ancestor of
the image (the image itself counts) with a product attribute, else with a
product item type, else with a product-card class, else that is an anchor
with `href`; else the nearest of the first five proper ancestors whose class
has one of the words; else the direct parent. -/
def refFindProductRoot (img : Img) : Option Node :=
  firstFound
    [closest img.chain productAttrSel, closest img.chain itemtypeSel,
     closest img.chain cardClassSel, closest img.chain linkSel,
     (img.ancestors.take 5).find? classLooksLikeCard, img.ancestors.head?]

/-- The objects the structured-data loop looks into: of a parsed value only
objects and arrays pass `typeof obj === "object"`, and only those of a
product type go on. -/
def qualifies (h : Host) : Json → Bool
  | .arr xs => isProduct h (.arr xs)
  | .obj kvs => isProduct h (.obj kvs)
  | _ => false

/-- The name an object supplies: its `name` when the object qualifies and
the name is a string. -/
def nameOffer (h : Host) (obj : Json) : Option Str :=
  if qualifies h obj then asString (obj.get "name".toList) else none

/-- The category an object supplies: its `category` when the object
qualifies and the category is a string. -/
def categoryOffer (h : Host) (obj : Json) : Option Str :=
  if qualifies h obj then asString (obj.get "category".toList) else none

/-- The brand an object supplies: with `brandObj` its `brand` when that is
truthy and its `manufacturer` otherwise, `brandObj` itself when it is a
non-empty string, the `name` of `brandObj` when it is an object with a string
name, and nothing otherwise. -/
def brandOffer (h : Host) (obj : Json) : Option Str :=
  if qualifies h obj then
    match propOr (obj.get "brand".toList) (obj.get "manufacturer".toList) with
    | some (.str s) => if s.isEmpty then none else some s
    | some (.obj kvs) => asString ((Json.obj kvs).get "name".toList)
    | _ => none
  else none

/-- The field the loop ends with, given the values supplied in order: the
first non-empty one; the empty string when only empty strings are supplied;
`null` when nothing is supplied. -/
def settleField (offers : List Str) : Val :=
  match offers.find? fun s => !s.isEmpty with
  | some s => .str s
  | none => if offers.isEmpty then .null else .str []

/-- The field as C14 words it: the first value supplied, `null` when
nothing is supplied. -/
def firstOffer (offers : List Str) : Val :=
  match offers.head? with
  | some s => .str s
  | none => .null

/-- The assignment `if (!cur) cur = s` for a value that may be supplied. -/
def fill (cur : Val) : Option Str → Val
  | some s => if !cur.truthy then .str s else cur
  | none => cur

/-- The assignment `if (!cur) cur = s` over the values supplied in order. -/
def fillAll (cur : Val) (offers : List Str) : Val :=
  offers.foldl (fun v s => fill v (some s)) cur

/-- The objects a script block contributes, in list order: none when its
text is blank or does not parse, the elements of a parsed array, else the
parsed value alone. -/
def candidatesOf (h : Host) (script : Node) : List Json :=
  if (trim (textContent script)).isEmpty then []
  else
    match h.jsonParse (textContent script) with
    | none => []
    | some (.arr xs) => xs
    | some d => [d]

/-- A script block whose text is not blank and parses as JSON. -/
def wellFormed (h : Host) (script : Node) : Bool :=
  !(trim (textContent script)).isEmpty && (h.jsonParse (textContent script)).isSome

/-- The initial `result` of the sub-extractors. -/
def noFields : Fields := { name := .null, brand := .null, category := .null }

/-! ## More concrete pages -/

/-- A card without name candidates and without `data-product-name`, whose
image has the alt text `Oak picture frame`. -/
def frameCard : Node :=
  el "div" [("class", "teaser")] [el "img" [("alt", "Oak picture frame")] []]

/-- The image of `frameCard`. -/
def frameImg : Img :=
  { self := el "img" [("alt", "Oak picture frame")] []
    ancestors := [frameCard]
    currentSrc := "https://shop.example/frame.jpg".toList
    src := "https://shop.example/frame.jpg".toList }

/-- An image element that has no parent element and no attribute the card
locator looks for. -/
def orphanImg : Img :=
  { self := el "img" [("src", "oak.jpg")] []
    ancestors := []
    currentSrc := "https://shop.example/oak.jpg".toList
    src := "https://shop.example/oak.jpg".toList }

/-- An image carrying `data-product-id` itself, inside a `product-card`. -/
def taggedImg : Img :=
  { self := el "img" [("data-product-id", "42")] []
    ancestors := [el "div" [("class", "product-card")] [el "img" [("data-product-id", "42")] []]]
    currentSrc := "https://shop.example/42.jpg".toList
    src := "https://shop.example/42.jpg".toList }

/-- Two Product objects: the first with the empty name, the second with the
name `Chair X`. -/
def emptyThenChair : List Json :=
  [.obj [("@type".toList, .str "Product".toList), ("name".toList, .str [])],
   .obj [("@type".toList, .str "Product".toList), ("name".toList, .str "Chair X".toList)]]

/-! # Theorems -/

/-- The value `null` is falsy. -/
theorem Val.truthy_null : Val.null.truthy = false := rfl

/-- A truthy left operand is the value of `a || b`. -/
theorem Val.or_of_truthy {a : Val} (h : a.truthy = true) (b : Val) : a.or b = a := by
  simp only [Val.or, h, if_true]

/-- An absent left operand makes `a || b` the right operand. -/
theorem Val.or_of_absent {a : Val} (h : a.absent = true) (b : Val) : a.or b = b := by
  cases a with
  | undefined => rfl
  | null => rfl
  | str s => exact absurd h (by simp [Val.absent])

/-- A falsy left operand makes `a || b` the right operand. -/
theorem Val.or_of_falsy {a : Val} (h : a.truthy = false) (b : Val) : a.or b = b := by
  simp only [Val.or, h, Bool.false_eq_true, if_false]

/-- The value `a || null` is `null` or a non-empty string. -/
theorem Val.or_null_cases (a : Val) :
    a.or .null = .null ∨ ∃ c s, a.or .null = .str (c :: s) := by
  cases a with
  | undefined => exact Or.inl rfl
  | null => exact Or.inl rfl
  | str s =>
    cases s with
    | nil => exact Or.inl rfl
    | cons c s => exact Or.inr ⟨c, s, rfl⟩

/-! ## Scoring loops -/

/-- An invariant of the accumulator of a left fold holds at the end. -/
theorem foldl_invariant {α β : Type} (P : β → Prop) (f : β → α → β) :
    ∀ (l : List α) (b : β), P b → (∀ acc a, a ∈ l → P acc → P (f acc a)) →
      P (l.foldl f b)
  | [], _, hb, _ => hb
  | a :: l, b, hb, hstep =>
    foldl_invariant P f l (f b a) (hstep b a (List.mem_cons_self a l) hb)
      (fun acc x hx hacc => hstep acc x (List.mem_cons_of_mem a hx) hacc)

/-- One round of `pickBestText` filters the text and then updates the best. -/
theorem pickStep_eq (h : Host) (maxLen : Nat) (role : Str) (acc : Best) (n : Node) :
    pickStep h maxLen role acc n =
      if keepText maxLen (textFrom (some n)) then
        bump (scoreText h role) acc (textFrom (some n))
      else acc := by
  unfold pickStep keepText bump
  by_cases h1 : (textFrom (some n)).isEmpty = true
  · simp [h1]
  · by_cases h2 : (maxLen != 0 && decide (maxLen < jsLength (textFrom (some n)))) = true
    · simp [h1, h2]
    · simp [h1, h2]

/-- The loop of `pickBestText` is the loop of updates over the texts that
pass the filter. -/
theorem foldl_pickStep (h : Host) (maxLen : Nat) (role : Str) :
    ∀ (nodes : List Node) (acc : Best),
      nodes.foldl (pickStep h maxLen role) acc =
        ((nodes.map fun n => textFrom (some n)).filter (keepText maxLen)).foldl
          (bump (scoreText h role)) acc
  | [], _ => rfl
  | n :: nodes, acc => by
    rw [List.foldl_cons, foldl_pickStep h maxLen role nodes, pickStep_eq, List.map_cons,
      List.filter_cons]
    by_cases hk : keepText maxLen (textFrom (some n)) = true
    · simp only [hk, if_true, List.foldl_cons]
    · simp only [hk, Bool.false_eq_true, if_false]

/-- The highest score of a non-empty list. -/
theorem maxScore_cons (x : Int) (xs : List Int) :
    maxScore (x :: xs) = some (match maxScore xs with
      | none => x
      | some m => max x m) := by
  cases hm : maxScore xs <;> simp [maxScore, hm]

/-- The loop of updates in closed form: the state after the texts `cs` is
the first text with the highest score when that score beats the initial
one, else the initial state. -/
theorem foldl_bump (f : Str → Int) :
    ∀ (cs : List Str) (acc : Best), cs.foldl (bump f) acc = settle f acc cs
  | [], acc => rfl
  | c :: cs, acc => by
    rw [List.foldl_cons, foldl_bump f cs]
    unfold settle
    rw [List.map_cons, maxScore_cons]
    obtain ⟨b, s⟩ := acc
    cases hm : maxScore (cs.map f) with
    | none =>
      simp only [bump, List.find?_cons, beq_self_eq_true, Option.getD_some]
    | some m =>
      simp only [bump, List.find?_cons]
      cases s with
      | none =>
        simp only [beats, if_true]
        by_cases hlt : f c < m
        · have hmax : max (f c) m = m := max_eq_right (le_of_lt hlt)
          have hne : (f c == m) = false := by
            simp only [beq_eq_false_iff_ne, ne_eq]; omega
          simp [hlt, hmax, hne]
        · have hmax : max (f c) m = f c := max_eq_left (not_lt.mp hlt)
          simp [hlt, hmax]
      | some s =>
        simp only [beats]
        by_cases hb : s < f c
        · by_cases hlt : f c < m
          · have hmax : max (f c) m = m := max_eq_right (le_of_lt hlt)
            have hne : (f c == m) = false := by
              simp only [beq_eq_false_iff_ne, ne_eq]; omega
            have hsm : s < m := by omega
            simp [hb, hlt, hmax, hne, hsm]
          · have hmax : max (f c) m = f c := max_eq_left (not_lt.mp hlt)
            simp [hb, hlt, hmax]
        · by_cases hsm : s < m
          · have hmax : max (f c) m = m := max_eq_right (by omega)
            have hne : (f c == m) = false := by
              simp only [beq_eq_false_iff_ne, ne_eq]; omega
            simp [hb, hsm, hmax, hne]
          · have hmax : ¬ s < max (f c) m := by
              rw [lt_max_iff]; omega
            simp [hb, hsm, hmax]

/-- The scoring loop from the initial state returns the first text with
the highest score. -/
theorem foldl_bump_init (f : Str → Int) (cs : List Str) :
    (cs.foldl (bump f) { best := [], bestScore := none }).best = firstBest f cs := by
  rw [foldl_bump]
  unfold settle firstBest
  cases maxScore (cs.map f) <;> simp [beats]

/-- The highest score of a list is attained in it and bounds every score. -/
theorem maxScore_spec (f : Str → Int) :
    ∀ (cs : List Str) (c : Str), c ∈ cs →
      ∃ m, maxScore (cs.map f) = some m ∧ (∃ t ∈ cs, f t = m) ∧ ∀ t ∈ cs, f t ≤ m
  | [], c, hc => absurd hc (List.not_mem_nil c)
  | x :: cs, _, _ => by
    rw [List.map_cons, maxScore_cons]
    cases cs with
    | nil =>
      refine ⟨f x, by simp [maxScore], ⟨x, List.mem_cons_self _ _, rfl⟩, ?_⟩
      intro t ht
      rw [List.mem_singleton] at ht
      rw [ht]
    | cons y ys =>
      obtain ⟨m, hm, ⟨t, ht, hft⟩, hle⟩ := maxScore_spec f (y :: ys) y (List.mem_cons_self _ _)
      rw [hm]
      refine ⟨max (f x) m, rfl, ?_, ?_⟩
      · by_cases hx : f x ≤ m
        · exact ⟨t, List.mem_cons_of_mem _ ht, by rw [hft, max_eq_right hx]⟩
        · exact ⟨x, List.mem_cons_self _ _, by rw [max_eq_left (le_of_lt (not_le.mp hx))]⟩
      · intro u hu
        rcases List.mem_cons.mp hu with hu | hu
        · rw [hu]; exact le_max_left _ _
        · exact le_trans (hle u hu) (le_max_right _ _)

/-- The first best text of a non-empty list is a member with a score no
other member exceeds. -/
theorem firstBest_spec (f : Str → Int) (cs : List Str) (c : Str) (hc : c ∈ cs) :
    firstBest f cs ∈ cs ∧ ∀ t ∈ cs, f t ≤ f (firstBest f cs) := by
  obtain ⟨m, hm, ⟨t, ht, hft⟩, hle⟩ := maxScore_spec f cs c hc
  unfold firstBest
  rw [hm]
  dsimp only
  cases hfind : cs.find? (fun t => f t == m) with
  | none =>
    have := List.find?_eq_none.mp hfind t ht
    simp [hft] at this
  | some r =>
    have hr := List.find?_some hfind
    have hmem := List.mem_of_find?_eq_some hfind
    simp only [beq_iff_eq] at hr
    rw [Option.getD_some]
    exact ⟨hmem, fun u hu => by rw [hr]; exact hle u hu⟩

/-- The first best text of the empty list is the empty string. -/
theorem firstBest_nil (f : Str → Int) : firstBest f [] = [] := rfl

/-- A conditional subtraction is the subtraction of a conditional amount. -/
theorem ite_sub_const (c : Prop) [Decidable c] (x k : Int) :
    (if c then x - k else x) = x - (if c then k else 0) := by
  split <;> simp

/-- The score of the code is the score of the specification. -/
theorem scoreText_eq_refScore (h : Host) (role t : Str) :
    scoreText h role t = refScore h role t := by
  unfold scoreText refScore
  simp only [ite_sub_const, Int.natCast_natAbs]
  have e1 : ((role == "name".toList || role == "brand".toList) && hasCurrency h t) = true ↔
      (hasCurrency h t = true ∧ (role = "name".toList ∨ role = "brand".toList)) := by
    simp only [Bool.and_eq_true, Bool.or_eq_true, beq_iff_eq]
    exact and_comm
  have e2 : ((role == "name".toList || role == "brand".toList) && decide (4 ≤ digitCount t)) = true ↔
      (4 ≤ digitCount t ∧ (role = "name".toList ∨ role = "brand".toList)) := by
    simp only [Bool.and_eq_true, Bool.or_eq_true, beq_iff_eq, decide_eq_true_eq]
    exact and_comm
  have e4 : (decide (3 ≤ digitCount t) && hasCurrency h t && role == "category".toList) = true ↔
      (role = "category".toList ∧ 3 ≤ digitCount t ∧ hasCurrency h t = true) := by
    simp only [Bool.and_eq_true, beq_iff_eq, decide_eq_true_eq]
    constructor
    · rintro ⟨⟨a, b⟩, c⟩; exact ⟨c, a, b⟩
    · rintro ⟨c, a, b⟩; exact ⟨⟨a, b⟩, c⟩
  have e5 : (decide (4 ≤ letterCount t) && decide (9 * letterCount t < 10 * capsCount t)) = true ↔
      (4 ≤ letterCount t ∧ 9 * letterCount t < 10 * capsCount t) := by
    simp only [Bool.and_eq_true, decide_eq_true_eq]
  simp only [e1, e2, e4, e5]

/-- The result of `pickBestText` is the first best of the texts that pass its
filter, under the score of the code. -/
theorem pickBestText_eq_firstBest (h : Host) (nodes : List Node) (maxLen : Nat) (role : Str) :
    pickBestText h nodes maxLen role =
      firstBest (scoreText h role)
        ((nodes.map fun n => textFrom (some n)).filter (keepText maxLen)) := by
  unfold pickBestText
  rw [foldl_pickStep, foldl_bump_init]

/-- The filter of the code keeps the candidates of the specification, a
`maxLen` of `0` standing for no limit. -/
theorem filter_keepText (texts : List Str) (maxLen : Nat) :
    texts.filter (keepText maxLen) =
      refCandidates texts (if maxLen = 0 then none else some maxLen) := by
  unfold refCandidates
  congr 1
  funext t
  unfold keepText
  by_cases h0 : maxLen = 0
  · simp [h0]
  · have hb : (maxLen != 0) = true := bne_iff_ne.mpr h0
    by_cases hl : maxLen < jsLength t
    · have hnl : ¬ jsLength t ≤ maxLen := not_le.mpr hl
      simp [h0, hb, hl, hnl]
    · simp [h0, hb, hl, not_lt.mp hl]

/-- A text kept by the filter is not empty, and not longer than a non-zero
`maxLen`. -/
theorem keepText_spec {maxLen : Nat} {t : Str} (hk : keepText maxLen t = true) :
    t ≠ [] ∧ (0 < maxLen → jsLength t ≤ maxLen) := by
  unfold keepText at hk
  simp only [Bool.and_eq_true, Bool.not_eq_true', Bool.and_eq_false_imp, bne_iff_ne, ne_eq,
    decide_eq_false_iff_not, not_lt, List.isEmpty_eq_true] at hk
  refine ⟨fun he => ?_, fun hpos => hk.2 (by omega)⟩
  have := hk.1
  simp [he] at this

/-- The result of `pickBestText` is the empty string or a kept text. -/
theorem pickBestText_mem (h : Host) (nodes : List Node) (maxLen : Nat) (role : Str) :
    ((nodes.map fun n => textFrom (some n)).filter (keepText maxLen) = [] ∧
        pickBestText h nodes maxLen role = []) ∨
      (pickBestText h nodes maxLen role ∈
          (nodes.map fun n => textFrom (some n)).filter (keepText maxLen) ∧
        ∀ t ∈ (nodes.map fun n => textFrom (some n)).filter (keepText maxLen),
          scoreText h role t ≤ scoreText h role (pickBestText h nodes maxLen role)) := by
  rw [pickBestText_eq_firstBest]
  cases hcs : (nodes.map fun n => textFrom (some n)).filter (keepText maxLen) with
  | nil => exact Or.inl ⟨rfl, rfl⟩
  | cons c cs => exact Or.inr (firstBest_spec _ (c :: cs) c (List.mem_cons_self _ _))

/-! ## Candidate scorer -/

/-- Bounds on the score for the role `name`: a text without currency token
and without call-to-action phrase loses at most 12 on top of its distance
from the ideal length 50; a text with both loses at least 32. -/
theorem scoreText_name_bounds (h : Host) (t : Str) :
    (hasCurrency h t = false → hasCta h t = false →
      -(((jsLength t : Int) - 50).natAbs : Int) - 12 ≤ scoreText h "name".toList t) ∧
    (hasCurrency h t = true → hasCta h t = true →
      scoreText h "name".toList t ≤ -(((jsLength t : Int) - 50).natAbs : Int) - 32) := by
  have hcat : ¬ ("name".toList = "category".toList) := by decide
  have hname : ("name".toList = "name".toList ∨ "name".toList = "brand".toList) :=
    Or.inl rfl
  rw [scoreText_eq_refScore]
  unfold refScore
  simp only [hcat, hname, if_false, and_true, false_and, Int.natCast_natAbs]
  constructor
  · intro h1 h2
    simp only [h1, h2, Bool.false_eq_true, if_false, true_or, and_true, false_and]
    split_ifs <;> omega
  · intro h1 h2
    simp only [h1, h2, if_true, true_or, and_true, false_and, if_false]
    split_ifs <;> omega

/-- C3, as stated, fails: of the two texts `Chair` (no currency token, no
call-to-action phrase) and a promotional line containing `buy now` and
`kr`, both non-empty and within the limit 140, `pickBestText` with role
`name` returns the promotional line, whose length is much closer to 50. -/
theorem pickBestText_promo_beats_name_example :
    let clean := el "h2" [] [tx "Chair"]
    let promo := el "h3" [] [tx "Oak Dining Table - buy now for only 199 kr today"]
    (∀ n ∈ [clean, promo],
      textFrom (some n) ≠ [] ∧ jsLength (textFrom (some n)) ≤ 140) ∧
    hasCurrency latinHost (textFrom (some clean)) = false ∧
    hasCta latinHost (textFrom (some clean)) = false ∧
    hasCurrency latinHost (textFrom (some promo)) = true ∧
    hasCta latinHost (textFrom (some promo)) = true ∧
    pickBestText latinHost [clean, promo] 140 "name".toList = textFrom (some promo) ∧
    pickBestText latinHost [clean, promo] 140 "name".toList ≠ textFrom (some clean) := by
  decide

/-- C3, amended: for the role `name`, when all texts are non-empty and
within `maxLen`, one text has neither a currency token nor a call-to-action
phrase, every text different from it has both, and the clean text's length
is less than 20 farther from 50 than the length of every other text, then
`pickBestText` returns the clean text. -/
theorem pickBestText_name_clean (h : Host) (nodes : List Node) (maxLen : Nat) (c : Node)
    (hc : c ∈ nodes)
    (hne : ∀ n ∈ nodes, textFrom (some n) ≠ [])
    (hlen : ∀ n ∈ nodes, jsLength (textFrom (some n)) ≤ maxLen)
    (hcur : hasCurrency h (textFrom (some c)) = false)
    (hcta : hasCta h (textFrom (some c)) = false)
    (hothers : ∀ n ∈ nodes, textFrom (some n) ≠ textFrom (some c) →
      hasCurrency h (textFrom (some n)) = true ∧ hasCta h (textFrom (some n)) = true)
    (hclose : ∀ n ∈ nodes, textFrom (some n) ≠ textFrom (some c) →
      ((jsLength (textFrom (some c)) : Int) - 50).natAbs <
        ((jsLength (textFrom (some n)) : Int) - 50).natAbs + 20) :
    pickBestText h nodes maxLen "name".toList = textFrom (some c) := by
  have hkeep : ∀ n ∈ nodes, keepText maxLen (textFrom (some n)) = true := by
    intro n hn
    have h1 := hne n hn
    have h2 := hlen n hn
    unfold keepText
    have h3 : (textFrom (some n)).isEmpty = false := by
      cases ht : textFrom (some n) with
      | nil => exact absurd ht h1
      | cons a as => rfl
    have h4 : ¬ maxLen < jsLength (textFrom (some n)) := not_lt.mpr h2
    simp [h3, h4]
  have hcmem : textFrom (some c) ∈
      (nodes.map fun n => textFrom (some n)).filter (keepText maxLen) :=
    List.mem_filter.mpr ⟨List.mem_map.mpr ⟨c, hc, rfl⟩, hkeep c hc⟩
  rcases pickBestText_mem h nodes maxLen "name".toList with ⟨hnil, _⟩ | ⟨hm, hmax⟩
  · rw [hnil] at hcmem
    exact absurd hcmem (List.not_mem_nil _)
  · by_contra hneq
    obtain ⟨hmem, _⟩ := List.mem_filter.mp hm
    obtain ⟨n, hn, htn⟩ := List.mem_map.mp hmem
    rw [← htn] at hneq hmax
    have hdirty := hothers n hn hneq
    have hd := hclose n hn hneq
    have hle := hmax _ hcmem
    have hlow := (scoreText_name_bounds h (textFrom (some c))).1 hcur hcta
    have hup := (scoreText_name_bounds h (textFrom (some n))).2 hdirty.1 hdirty.2
    omega

/-- C3, amended, at a concrete list: the name `Oak Dining Table` wins
against the promotional line `Buy now 199 kr`. -/
theorem pickBestText_name_clean_witness :
    pickBestText latinHost
        [el "span" [] [tx "Buy now 199 kr"], el "h2" [] [tx "Oak Dining Table"]] 140
        "name".toList =
      "Oak Dining Table".toList :=
  pickBestText_name_clean latinHost
    [el "span" [] [tx "Buy now 199 kr"], el "h2" [] [tx "Oak Dining Table"]] 140
    (el "h2" [] [tx "Oak Dining Table"])
    (by decide) (by decide) (by decide) (by decide) (by decide) (by decide) (by decide)

/-- C4: for a positive `maxLen` the string `pickBestText` returns is not
longer than `maxLen`, and it is the empty string when every node's text is
empty or longer than `maxLen`. -/
theorem pickBestText_length_le (h : Host) (nodes : List Node) (maxLen : Nat) (role : Str)
    (hpos : 0 < maxLen) :
    jsLength (pickBestText h nodes maxLen role) ≤ maxLen ∧
    ((∀ n ∈ nodes, textFrom (some n) = [] ∨ maxLen < jsLength (textFrom (some n))) →
      pickBestText h nodes maxLen role = []) := by
  constructor
  · rcases pickBestText_mem h nodes maxLen role with ⟨_, he⟩ | ⟨hm, _⟩
    · rw [he]; exact Nat.zero_le _
    · exact (keepText_spec (List.mem_filter.mp hm).2).2 hpos
  · intro hall
    rcases pickBestText_mem h nodes maxLen role with ⟨_, he⟩ | ⟨hm, _⟩
    · exact he
    · obtain ⟨hmem, hk⟩ := List.mem_filter.mp hm
      obtain ⟨n, hn, htn⟩ := List.mem_map.mp hmem
      have hs := keepText_spec hk
      rcases hall n hn with he | hl
      · exact absurd (htn ▸ he) hs.1
      · have := hs.2 hpos
        rw [← htn] at this
        omega

/-- C4 at a concrete list: the heading of the oak card under the limit 140. -/
theorem pickBestText_length_le_witness :
    0 < 140 ∧
    jsLength (pickBestText latinHost [el "h2" [] [tx "Oak Dining Table"]] 140 "name".toList)
      ≤ 140 :=
  ⟨by decide,
   (pickBestText_length_le latinHost [el "h2" [] [tx "Oak Dining Table"]] 140 "name".toList
      (by decide)).1⟩

/-- C5, as stated, fails at `maxLen = 0`: the code applies no length limit
and returns `Chair`, while no text is "not longer than 0", so the reference
scorer with the limit `0` returns the empty string. -/
theorem pickBestText_zero_maxLen_example :
    pickBestText latinHost [el "h2" [] [tx "Chair"]] 0 "name".toList = "Chair".toList ∧
    refPickBestText latinHost [textFrom (some (el "h2" [] [tx "Chair"]))] (some 0)
      "name".toList = [] ∧
    pickBestText latinHost [el "h2" [] [tx "Chair"]] 0 "name".toList ≠
      refPickBestText latinHost [textFrom (some (el "h2" [] [tx "Chair"]))] (some 0)
        "name".toList := by
  decide

/-- C5, amended: `pickBestText` equals the reference scorer on the
normalized texts of the nodes, with the length limit `maxLen` when it is not
zero and with no length limit when it is zero; the result is the empty
string exactly when no text is a candidate. -/
theorem pickBestText_eq_reference (h : Host) (nodes : List Node) (maxLen : Nat) (role : Str) :
    pickBestText h nodes maxLen role =
      refPickBestText h (nodes.map fun n => textFrom (some n))
        (if maxLen = 0 then none else some maxLen) role ∧
    (pickBestText h nodes maxLen role = [] ↔
      refCandidates (nodes.map fun n => textFrom (some n))
        (if maxLen = 0 then none else some maxLen) = []) := by
  have hf : scoreText h role = refScore h role := funext (scoreText_eq_refScore h role)
  refine ⟨?_, ?_⟩
  · rw [pickBestText_eq_firstBest, filter_keepText, hf]
    rfl
  · rw [← filter_keepText]
    rcases pickBestText_mem h nodes maxLen role with ⟨hnil, he⟩ | ⟨hm, _⟩
    · exact ⟨fun _ => hnil, fun _ => he⟩
    · constructor
      · intro he
        exact absurd he (keepText_spec (List.mem_filter.mp hm).2).1
      · intro hnil
        rw [hnil] at hm
        exact absurd hm (List.not_mem_nil _)

/-! ## Price extractor and card classifier -/

/-- One round of `extractPriceText` leaves the state alone, or replaces the
best by a text with a currency token and at least 2 digits. -/
theorem priceStep_cases (h : Host) (acc : Best) (n : Node) :
    priceStep h acc n = acc ∨
      ∃ s, priceStep h acc n = { best := textFrom (some n), bestScore := some s } ∧
        hasCurrency h (textFrom (some n)) = true ∧ 2 ≤ digitCount (textFrom (some n)) := by
  unfold priceStep
  by_cases h1 : (textFrom (some n)).isEmpty = true
  · left; simp only [h1, if_true]
  · by_cases h2 : (!hasCurrency h (textFrom (some n)) ||
        decide (digitCount (textFrom (some n)) < 2)) = true
    · left; simp only [h1, h2, if_true, Bool.false_eq_true, if_false]
    · have h3 := h2
      simp only [Bool.or_eq_true, Bool.not_eq_true', decide_eq_true_eq, not_or,
        Bool.not_eq_false, not_lt] at h3
      simp only [h1, h2, Bool.false_eq_true, if_false]
      split_ifs <;> first | exact Or.inl rfl | exact Or.inr ⟨_, rfl, h3.1, h3.2⟩

/-- C10: the string `extractPriceText` returns is empty, or it is the
normalized text of a price-candidate node and has a currency token and at
least 2 digit characters; so a text without a currency token is never
returned, whatever its digits. -/
theorem extractPriceText_spec (h : Host) (scope : Option Node) :
    extractPriceText h scope = [] ∨
      (hasCurrency h (extractPriceText h scope) = true ∧
        2 ≤ digitCount (extractPriceText h scope) ∧
        ∃ n ∈ priceCandidates scope, extractPriceText h scope = textFrom (some n)) := by
  unfold extractPriceText
  by_cases hnil : (priceCandidates scope).isEmpty = true
  · simp only [hnil, if_true]
    exact Or.inl trivial
  · simp only [hnil, Bool.false_eq_true, if_false]
    refine foldl_invariant
      (fun acc : Best => acc.best = [] ∨
        (hasCurrency h acc.best = true ∧ 2 ≤ digitCount acc.best ∧
          ∃ n ∈ priceCandidates scope, acc.best = textFrom (some n)))
      (priceStep h) (priceCandidates scope) _ (Or.inl rfl) ?_
    intro acc n hn hacc
    rcases priceStep_cases h acc n with he | ⟨s, he, hcur, hdig⟩
    · rw [he]; exact hacc
    · rw [he]; exact Or.inr ⟨hcur, hdig, n, hn, rfl⟩

/-- C9: `looksLikeGridProductCard(root)` is true exactly when the price text
of the root and the best name text among its name candidates are both
non-empty; for a `null` root it is false. -/
theorem looksLikeGridProductCard_iff (h : Host) (root : Option Node) :
    (looksLikeGridProductCard h root = true ↔
      (extractPriceText h root ≠ [] ∧
        pickBestText h (collectNameCandidates root) 140 "name".toList ≠ [])) ∧
    looksLikeGridProductCard h none = false := by
  refine ⟨?_, rfl⟩
  cases root with
  | none =>
    constructor
    · intro hf
      exact absurd hf (by simp [looksLikeGridProductCard])
    · intro hp
      exact absurd rfl hp.1
  | some r =>
    unfold looksLikeGridProductCard
    simp only [Bool.and_eq_true, Bool.not_eq_true', List.isEmpty_eq_false, ne_eq]

/-! ## Remote metadata extractor -/

/-- A non-empty string is truthy. -/
theorem Val.truthy_str_of_ne {s : Str} (hs : s ≠ []) : (Val.str s).truthy = true := by
  cases s with
  | nil => exact absurd rfl hs
  | cons a as => rfl

/-- A non-empty string is not `isEmpty`. -/
theorem isEmpty_false_of_ne {s : Str} (hs : s ≠ []) : s.isEmpty = false := by
  cases s with
  | nil => exact absurd rfl hs
  | cons a as => rfl

/-- The structured-data step on a Product object with string name, brand
and category, from the initial result. -/
theorem jsonLdStep_product (h : Host) (kvs : List (Str × Json)) (n b c : Str)
    (hlower : h.toLowerCase "Product".toList = "product".toList)
    (htype : (Json.obj kvs).get "@type".toList = some (.str "Product".toList))
    (hname : (Json.obj kvs).get "name".toList = some (.str n))
    (hbrand : (Json.obj kvs).get "brand".toList = some (.str b))
    (hcat : (Json.obj kvs).get "category".toList = some (.str c))
    (hb : b ≠ []) :
    jsonLdStep h { name := .null, brand := .null, category := .null } (.obj kvs) =
      { name := .str n, brand := .str b, category := .str c } := by
  have hprod : isProduct h (.obj kvs) = true := by
    unfold isProduct
    have hp : "Product".toList.isEmpty = false := by decide
    have hi : includes "product".toList "product".toList = true := by decide
    simp only [htype, propOr, propTruthy, Json.truthy, hp, Bool.not_false, if_true,
      List.any_cons, List.any_nil, Bool.or_false, hlower, hi]
  have hbt : propTruthy (some (Json.str b)) = true := by
    simp only [propTruthy, Json.truthy, isEmpty_false_of_ne hb, Bool.not_false]
  unfold jsonLdStep
  simp only [hprod, Bool.not_true, Bool.false_eq_true, if_false, hname, hcat, hbrand, asString,
    propOr, hbt, if_true, Val.truthy_null, Bool.not_false]

/-- C6: on a document whose structured-data blocks are one script that
parses to an object of type `Product` with string name `n`, brand `b` and
category `c`, all non-empty, the remote metadata extractor yields exactly
`{productName: n, productCategory: c, manufacturer: b}`, and so does
`fetchProductPageMeta` on a URL at which that document is fetched. -/
theorem remoteMeta_jsonld_product (h : Host) (doc : Doc) (script : Node)
    (kvs : List (Str × Json)) (n b c : Str)
    (hscripts : doc.querySelectorAll ldJsonSel = [script])
    (htext : trim (textContent script) ≠ [])
    (hparse : h.jsonParse (textContent script) = some (.obj kvs))
    (hlower : h.toLowerCase "Product".toList = "product".toList)
    (htype : (Json.obj kvs).get "@type".toList = some (.str "Product".toList))
    (hname : (Json.obj kvs).get "name".toList = some (.str n))
    (hbrand : (Json.obj kvs).get "brand".toList = some (.str b))
    (hcat : (Json.obj kvs).get "category".toList = some (.str c))
    (hn : n ≠ []) (hb : b ≠ []) (hc : c ≠ []) :
    remoteMetaFromDoc h doc =
      { productName := .str n, productCategory := .str c, manufacturer := .str b } ∧
    ∀ productUrl : Str, productUrl ≠ [] → h.fetchDoc productUrl = some doc →
      fetchProductPageMeta h productUrl =
        { productName := .str n, productCategory := .str c, manufacturer := .str b } := by
  have hld : parseJsonLdProductFromDoc h doc =
      { name := .str n, brand := .str b, category := .str c } := by
    unfold parseJsonLdProductFromDoc
    rw [hscripts, List.foldl_cons, List.foldl_nil]
    unfold scriptStep
    simp only [isEmpty_false_of_ne htext, Bool.false_eq_true, if_false, hparse, List.foldl_cons,
      List.foldl_nil]
    exact jsonLdStep_product h kvs n b c hlower htype hname hbrand hcat hb
  have hremote : remoteMetaFromDoc h doc =
      { productName := .str n, productCategory := .str c, manufacturer := .str b } := by
    unfold remoteMetaFromDoc cascadeMeta
    simp only [hld, Val.truthy_str_of_ne hn, Val.truthy_str_of_ne hb, Val.truthy_str_of_ne hc,
      if_true, Bool.not_true, Bool.false_and, Bool.false_eq_true, if_false]
  refine ⟨hremote, ?_⟩
  intro productUrl hurl hdoc
  unfold fetchProductPageMeta
  simp only [isEmpty_false_of_ne hurl, Bool.false_eq_true, if_false, hdoc]
  exact hremote

/-- C6 at the page of `Chair X`: name `Chair X`, brand `Acme`, category
`Furniture`. -/
theorem remoteMeta_jsonld_product_witness :
    remoteMetaFromDoc chairHost chairDoc =
      { productName := .str "Chair X".toList, productCategory := .str "Furniture".toList,
        manufacturer := .str "Acme".toList } :=
  (remoteMeta_jsonld_product chairHost chairDoc chairScript
    [("@type".toList, .str "Product".toList), ("name".toList, .str "Chair X".toList),
     ("brand".toList, .str "Acme".toList), ("category".toList, .str "Furniture".toList)]
    "Chair X".toList "Acme".toList "Furniture".toList
    (by decide) (by decide) (by rfl) (by decide) (by rfl) (by rfl) (by rfl) (by rfl)
    (by decide) (by decide) (by decide)).1

/-- The filter of `titleParts` keeps the pieces that are not empty. -/
theorem titleParts_eq (title : Str) :
    titleParts title =
      ((splitOn isTitleSep title).map trim).filter fun p => decide (p ≠ []) := by
  unfold titleParts
  congr 1
  funext p
  cases p <;> simp

/-- The empty title has no non-empty piece. -/
theorem titleParts_nil : titleParts [] = [] := by decide

/-- C7: with the title split on `|`, `-`, en dash and `»` and the pieces
trimmed, the name `parseTitleFromDoc` returns is the first non-empty piece
(`null` when there is none), and the brand is the last non-empty piece when
there are at least two non-empty pieces and the last differs from the first
after lower-casing, else `null`; the title
`Eames Lounge Chair | Herman Miller` gives that name and that brand. -/
theorem parseTitleFromDoc_spec :
    (∀ (h : Host) (doc : Doc),
      let segs := ((splitOn isTitleSep doc.title).map trim).filter fun p => decide (p ≠ [])
      (parseTitleFromDoc h doc).name =
        (match segs.head? with
         | some s => Val.str s
         | none => Val.null) ∧
      (parseTitleFromDoc h doc).brand =
        (if 2 ≤ segs.length ∧
            h.toLowerCase (segs.getLast?.getD []) ≠ h.toLowerCase (segs.head?.getD []) then
          Val.str (segs.getLast?.getD [])
        else Val.null)) ∧
    parseTitleFromDoc latinHost
        { documentElement := el "html" [] []
          title := "Eames Lounge Chair | Herman Miller".toList } =
      { name := .str "Eames Lounge Chair".toList, brand := .str "Herman Miller".toList } := by
  refine ⟨?_, by decide⟩
  intro h doc
  simp only
  rw [← titleParts_eq]
  unfold parseTitleFromDoc
  by_cases ht : doc.title.isEmpty = true
  · have ht2 : doc.title = [] := List.isEmpty_iff.mp ht
    simp only [ht, if_true, ht2, titleParts_nil]
    exact ⟨rfl, rfl⟩
  · simp only [ht, Bool.false_eq_true, if_false]
    cases hp : titleParts doc.title with
    | nil => exact ⟨rfl, rfl⟩
    | cons name rest =>
      have hlast : (name :: rest).getLast?.getD [] =
          (name :: rest).getLast (List.cons_ne_nil name rest) := by
        rw [List.getLast?_eq_getLast _ (List.cons_ne_nil name rest)]
        rfl
      simp only [List.head?_cons, Option.getD_some, hlast, List.length_cons]
      by_cases hc : (decide (1 < rest.length + 1) &&
          h.toLowerCase ((name :: rest).getLast (List.cons_ne_nil name rest)) !=
            h.toLowerCase name) = true
      · have hc2 := hc
        simp only [Bool.and_eq_true, decide_eq_true_eq, bne_iff_ne, ne_eq] at hc2
        have hc3 : 2 ≤ rest.length + 1 ∧
            h.toLowerCase ((name :: rest).getLast (List.cons_ne_nil name rest)) ≠
              h.toLowerCase name := ⟨by omega, hc2.2⟩
        simp only [hc, if_true, hc3, and_self, ne_eq, not_false_eq_true]
      · have hc2 := hc
        simp only [Bool.and_eq_true, decide_eq_true_eq, bne_iff_ne, ne_eq, not_and,
          not_not] at hc2
        have hc3 : ¬ (2 ≤ rest.length + 1 ∧
            h.toLowerCase ((name :: rest).getLast (List.cons_ne_nil name rest)) ≠
              h.toLowerCase name) := by
          rintro ⟨h2, h3⟩
          exact h3 (hc2 (by omega))
        simp only [hc, Bool.false_eq_true, if_false, hc3, and_self]

/-- C8: in the cascade of `fetchProductPageMeta`, each output field is the
first present and non-empty value among the structured-data, the
head-metadata and (for name and manufacturer only) the title-derived value,
else `null`; the category does not depend on the title-derived values; and
`fetchProductPageMeta` on a page that was fetched is this cascade over the
three sub-extractors. -/
theorem cascadeMeta_precedence (jsonld head : Fields) (fromTitle : TitleMeta) :
    (cascadeMeta jsonld head fromTitle).productName =
      firstTruthy [jsonld.name, head.name, fromTitle.name] ∧
    (cascadeMeta jsonld head fromTitle).productCategory =
      firstTruthy [jsonld.category, head.category] ∧
    (cascadeMeta jsonld head fromTitle).manufacturer =
      firstTruthy [jsonld.brand, head.brand, fromTitle.brand] ∧
    (∀ other : TitleMeta,
      (cascadeMeta jsonld head other).productCategory =
        (cascadeMeta jsonld head fromTitle).productCategory) ∧
    (∀ (h : Host) (productUrl : Str) (doc : Doc),
      productUrl ≠ [] → h.fetchDoc productUrl = some doc →
      fetchProductPageMeta h productUrl =
        cascadeMeta (parseJsonLdProductFromDoc h doc) (parseHeadMetaFromDoc doc)
          (parseTitleFromDoc h doc)) := by
  refine ⟨?_, ?_, ?_, fun _ => rfl, ?_⟩
  · unfold cascadeMeta firstTruthy firstTruthy firstTruthy firstTruthy
    cases h1 : jsonld.name.truthy <;> cases h2 : head.name.truthy <;>
      cases h3 : fromTitle.name.truthy <;> simp [h1, h2, h3, Val.truthy_null]
  · unfold cascadeMeta firstTruthy firstTruthy firstTruthy
    cases h1 : jsonld.category.truthy <;> cases h2 : head.category.truthy <;>
      simp [h1, h2, Val.truthy_null]
  · unfold cascadeMeta firstTruthy firstTruthy firstTruthy firstTruthy
    cases h1 : jsonld.brand.truthy <;> cases h2 : head.brand.truthy <;>
      cases h3 : fromTitle.brand.truthy <;> simp [h1, h2, h3, Val.truthy_null]
  · intro h productUrl doc hurl hdoc
    unfold fetchProductPageMeta
    have he : productUrl.isEmpty = false := by
      cases productUrl with
      | nil => exact absurd rfl hurl
      | cons a as => rfl
    simp only [he, Bool.false_eq_true, if_false, hdoc]
    rfl

/-- C8 at a concrete page: the page of `Chair X` fetched by `chairHost`. -/
theorem cascadeMeta_precedence_witness :
    fetchProductPageMeta chairHost "https://shop.example/chair-x".toList =
      cascadeMeta (parseJsonLdProductFromDoc chairHost chairDoc) (parseHeadMetaFromDoc chairDoc)
        (parseTitleFromDoc chairHost chairDoc) :=
  (cascadeMeta_precedence
      { name := .str "Chair X".toList, brand := .null, category := .null }
      { name := .null, brand := .str "Acme".toList, category := .null }
      { name := .null, brand := .null }).2.2.2.2
    chairHost "https://shop.example/chair-x".toList chairDoc (by decide) (by decide)

/-! ## Merge engine -/

/-- C1, as stated, fails: with no category in `extra` under either name and
the category `"Sofas"` in `base`, the merged category is `null`, not the
value of `base`. -/
theorem mergeMeta_category_ignores_base_example :
    let base : Meta := ⟨.null, .str "Sofas".toList, .null⟩
    let extra : Extra := ⟨.undefined, .undefined, .undefined, .undefined, .undefined, .undefined⟩
    extra.productCategory.absent = true ∧ extra.category.absent = true ∧
    base.productCategory.truthy = true ∧
    (mergeMeta base extra).productCategory = .null ∧
    (mergeMeta base extra).productCategory ≠ base.productCategory := by
  decide

/-- C1, amended: a non-empty value of `extra` under the canonical name is
the output for each of the three fields; for `productName` and
`manufacturer`, when `extra` has no value under either name and `base` has a
non-empty value, the output is the value of `base`; `productCategory` does
not depend on `base` at all and is `null` when `extra` has no category under
either name. -/
theorem mergeMeta_precedence (base : Meta) (extra : Extra) :
    (extra.productName.truthy = true →
      (mergeMeta base extra).productName = extra.productName) ∧
    (extra.productCategory.truthy = true →
      (mergeMeta base extra).productCategory = extra.productCategory) ∧
    (extra.manufacturer.truthy = true →
      (mergeMeta base extra).manufacturer = extra.manufacturer) ∧
    (extra.productName.absent = true → extra.name.absent = true →
      base.productName.truthy = true →
      (mergeMeta base extra).productName = base.productName) ∧
    (extra.manufacturer.absent = true → extra.brand.absent = true →
      base.manufacturer.truthy = true →
      (mergeMeta base extra).manufacturer = base.manufacturer) ∧
    (∀ base' : Meta,
      (mergeMeta base' extra).productCategory = (mergeMeta base extra).productCategory) ∧
    (extra.productCategory.absent = true → extra.category.absent = true →
      (mergeMeta base extra).productCategory = .null) := by
  refine ⟨?_, ?_, ?_, ?_, ?_, ?_, ?_⟩
  · intro h
    simp only [mergeMeta, Val.or_of_truthy h]
  · intro h
    simp only [mergeMeta, Val.or_of_truthy h]
  · intro h
    simp only [mergeMeta, Val.or_of_truthy h]
  · intro h1 h2 h3
    simp only [mergeMeta, Val.or_of_absent h1, Val.or_of_absent h2, Val.or_of_truthy h3]
  · intro h1 h2 h3
    simp only [mergeMeta, Val.or_of_absent h1, Val.or_of_absent h2, Val.or_of_truthy h3]
  · intro base'
    rfl
  · intro h1 h2
    simp only [mergeMeta, Val.or_of_absent h1, Val.or_of_absent h2]

/-- The amended C1 at a concrete pair: the remote side has no name and no
brand under either name, so the local name and brand are kept, and the
category is `null`. -/
theorem mergeMeta_precedence_witness :
    (mergeMeta ⟨.str "Oak Table".toList, .undefined, .str "Ikea".toList⟩
        ⟨.null, .undefined, .null, .undefined, .null, .undefined⟩).productName
      = .str "Oak Table".toList ∧
    (mergeMeta ⟨.str "Oak Table".toList, .undefined, .str "Ikea".toList⟩
        ⟨.null, .undefined, .null, .undefined, .null, .undefined⟩).manufacturer
      = .str "Ikea".toList ∧
    (mergeMeta ⟨.str "Oak Table".toList, .undefined, .str "Ikea".toList⟩
        ⟨.null, .undefined, .null, .undefined, .null, .undefined⟩).productCategory
      = .null :=
  ⟨(mergeMeta_precedence ⟨.str "Oak Table".toList, .undefined, .str "Ikea".toList⟩
      ⟨.null, .undefined, .null, .undefined, .null, .undefined⟩).2.2.2.1 rfl rfl rfl,
   (mergeMeta_precedence ⟨.str "Oak Table".toList, .undefined, .str "Ikea".toList⟩
      ⟨.null, .undefined, .null, .undefined, .null, .undefined⟩).2.2.2.2.1 rfl rfl rfl,
   (mergeMeta_precedence ⟨.str "Oak Table".toList, .undefined, .str "Ikea".toList⟩
      ⟨.null, .undefined, .null, .undefined, .null, .undefined⟩).2.2.2.2.2.2 rfl rfl⟩

/-! ## Item builder -/

/-- C2, the code at the failing input: on the specification's card without
an anchor the root is a grid card, no product link is found, and the item
built has `productCategory` `undefined` (not `null`), while `productName` is
the heading and `manufacturer` is `null`. -/
theorem buildItemForImage_oakCard_category_undefined :
    imgAt oakCard [0] oakImg.currentSrc oakImg.src = some oakImg ∧
    findProductRoot oakImg = some oakCard ∧
    looksLikeGridProductCard latinHost (some oakCard) = true ∧
    findProductLinkFromCard latinHost (some oakCard) (some oakImg) = none ∧
    buildItemForImage latinHost oakImg =
      some { imageUrl := "https://shop.example/oak.jpg".toList
             productName := .str "Oak Dining Table".toList
             productCategory := .undefined
             manufacturer := .null
             pageUrl := "https://shop.example/list".toList
             productPageUrl := .null } := by
  decide

/-! ## Local metadata extractor -/

/-- C11, the code at the failing input: the root has no name candidate, and
the alt text `Oak picture frame` is non-empty, at most 200 characters long
and none of the placeholders `image`, `picture`, `product` in any case; yet
the pattern `/^image|picture|product$/i` matches it (it contains `picture`),
the alt text is not taken, and `productName` stays `null`. -/
theorem extractLocalMetaFromCard_frameCard_alt_rejected :
    pickBestText latinHost (collectNameCandidates (some frameCard)) 140 "name".toList = [] ∧
    trim (orEmpty (getAttribute frameImg.self "alt".toList)) = "Oak picture frame".toList ∧
    jsLength "Oak picture frame".toList ≤ 200 ∧
    (∀ w ∈ ["image".toList, "picture".toList, "product".toList],
      lowerLatin "Oak picture frame".toList ≠ w) ∧
    altIsGeneric "Oak picture frame".toList = true ∧
    getAttribute frameCard "data-product-name".toList = none ∧
    (extractLocalMetaFromCard latinHost (some frameCard) (some frameImg)).productName =
      .null := by
  decide

/-! ## Card locator -/

/-- A search list that finds something contains what it finds. -/
theorem firstFound_mem :
    ∀ (l : List (Option Node)) (r : Node), firstFound l = some r → some r ∈ l
  | [], _, hf => by simp [firstFound] at hf
  | some n :: rest, r, hf => by
    simp only [firstFound, Option.some.injEq] at hf
    rw [hf]
    exact List.mem_cons_self _ _
  | none :: rest, r, hf => by
    simp only [firstFound] at hf
    exact List.mem_cons_of_mem _ (firstFound_mem rest r hf)

/-- A search list with a successful search finds something. -/
theorem firstFound_of_mem :
    ∀ (l : List (Option Node)) (r : Node), some r ∈ l → ∃ n, firstFound l = some n
  | [], r, hm => absurd hm (List.not_mem_nil _)
  | some n :: _, _, _ => ⟨n, rfl⟩
  | none :: rest, r, hm => by
    rcases List.mem_cons.mp hm with hm | hm
    · exact absurd hm (by simp)
    · exact firstFound_of_mem rest r hm

/-- The card locator is the search order in closed form. -/
theorem findProductRoot_eq_ref (img : Img) : findProductRoot img = refFindProductRoot img := by
  show (match (closest img.chain productAttrSel).orElse
            (fun _ => closest img.chain itemtypeSel) with
        | some root => some root
        | none =>
          match closest img.chain cardClassSel with
          | some root => some root
          | none =>
            match closest img.chain linkSel with
            | some linkRoot => some linkRoot
            | none =>
              match (img.ancestors.take 5).find? classLooksLikeCard with
              | some node => some node
              | none => img.ancestors.head?) =
      firstFound
        [closest img.chain productAttrSel, closest img.chain itemtypeSel,
         closest img.chain cardClassSel, closest img.chain linkSel,
         (img.ancestors.take 5).find? classLooksLikeCard, img.ancestors.head?]
  cases closest img.chain productAttrSel <;> cases closest img.chain itemtypeSel <;>
    cases closest img.chain cardClassSel <;> cases closest img.chain linkSel <;>
    cases (img.ancestors.take 5).find? classLooksLikeCard <;>
    cases img.ancestors.head? <;> rfl

/-- C12, as stated, fails: an image element without a parent element and
without the attributes searched for has the root `null`; and an image that
carries `data-product-id` itself is its own root, although it is no ancestor
of itself and its parent has the class `product-card`. -/
theorem findProductRoot_orphan_and_tagged_example :
    findProductRoot orphanImg = none ∧
    findProductRoot taggedImg = some taggedImg.self ∧
    taggedImg.self ∉ taggedImg.ancestors ∧
    closest taggedImg.ancestors cardClassSel = taggedImg.ancestors.head? ∧
    taggedImg.ancestors.head? ≠ none := by
  decide

/-- C12, amended: `findProductRoot` returns the first element found in the
search order over the inclusive ancestors of the image (the image itself
counts for the attribute, item type, class and anchor searches), else the
direct parent; what it returns is the image or one of its ancestors; and for
an image that has a parent element it never returns `null`. -/
theorem findProductRoot_spec (img : Img) :
    findProductRoot img = refFindProductRoot img ∧
    (∀ r, findProductRoot img = some r → r ∈ img.chain) ∧
    (img.ancestors ≠ [] → ∃ r, findProductRoot img = some r) := by
  refine ⟨findProductRoot_eq_ref img, ?_, ?_⟩
  · intro r hr
    rw [findProductRoot_eq_ref] at hr
    have hm := firstFound_mem _ r hr
    simp only [List.mem_cons, List.mem_singleton, List.not_mem_nil, or_false] at hm
    have hanc : ∀ x, x ∈ img.ancestors → x ∈ img.chain :=
      fun x hx => List.mem_cons_of_mem _ hx
    rcases hm with hm | hm | hm | hm | hm | hm
    · exact List.mem_of_find?_eq_some hm.symm
    · exact List.mem_of_find?_eq_some hm.symm
    · exact List.mem_of_find?_eq_some hm.symm
    · exact List.mem_of_find?_eq_some hm.symm
    · exact hanc r (List.mem_of_mem_take (List.mem_of_find?_eq_some hm.symm))
    · exact hanc r (List.mem_of_mem_head? hm.symm)
  · intro hne
    rw [findProductRoot_eq_ref]
    cases hanc : img.ancestors with
    | nil => exact absurd hanc hne
    | cons p ps =>
      apply firstFound_of_mem _ p
      simp [refFindProductRoot, hanc]

/-- C12, amended, at the oak card: the image has a parent, and a root is
found. -/
theorem findProductRoot_spec_witness :
    oakImg.ancestors ≠ [] ∧ ∃ r, findProductRoot oakImg = some r :=
  ⟨by decide, (findProductRoot_spec oakImg).2.2 (by decide)⟩

/-! ## Geometry filter -/

/-- C13: for an element whose computed style is not hidden (display not
`none`, visibility not `hidden`, opacity not parsed as `0`),
`isEligibleImage` is true exactly when width and height both lie in the
inclusive band from 100 to 1000; and an element with a zero dimension or a
hidden style is not eligible. -/
theorem isEligibleImage_iff (parseFloat : Str → Option Rat) (img : Rendered) :
    (img.nodeType = 1 → img.style.display ≠ "none".toList →
      img.style.visibility ≠ "hidden".toList →
      parseFloat (if !img.style.opacity.isEmpty then img.style.opacity else "1".toList)
        ≠ some 0 →
      (isEligibleImage parseFloat (some img) = true ↔
        (100 ≤ img.rect.width ∧ img.rect.width ≤ 1000 ∧
          100 ≤ img.rect.height ∧ img.rect.height ≤ 1000))) ∧
    (img.rect.width = 0 ∨ img.rect.height = 0 ∨ img.style.display = "none".toList ∨
        img.style.visibility = "hidden".toList ∨
        parseFloat (if !img.style.opacity.isEmpty then img.style.opacity else "1".toList)
          = some 0 →
      isEligibleImage parseFloat (some img) = false) := by
  constructor
  · intro helem hd hv ho
    have hs : styleHidden parseFloat img.style = false := by
      unfold styleHidden
      simp only [Bool.or_eq_false_iff, beq_eq_false_iff_ne, ne_eq]
      exact ⟨⟨hd, hv⟩, ho⟩
    unfold isEligibleImage MIN_IMAGE_WIDTH MIN_IMAGE_HEIGHT MAX_IMAGE_WIDTH MAX_IMAGE_HEIGHT
    simp only [helem, bne_self_eq_false, Bool.false_eq_true, if_false, hs]
    by_cases hw0 : img.rect.width = 0
    · simp only [hw0, beq_self_eq_true, Bool.true_or, if_true, Bool.false_eq_true, false_iff]
      intro hb
      linarith [hb.1]
    · by_cases hh0 : img.rect.height = 0
      · simp only [hh0, beq_self_eq_true, Bool.or_true, if_true, Bool.false_eq_true,
          false_iff]
        intro hb
        linarith [hb.2.2.1]
      · have hw0b : (img.rect.width == 0) = false := beq_eq_false_iff_ne.mpr hw0
        have hh0b : (img.rect.height == 0) = false := beq_eq_false_iff_ne.mpr hh0
        simp only [hw0b, hh0b, Bool.or_self, Bool.false_eq_true, if_false, Bool.or_eq_true,
          decide_eq_true_eq]
        by_cases h1 : img.rect.width < 100 ∨ img.rect.height < 100
        · simp only [h1, if_true, Bool.false_eq_true, false_iff]
          intro hb
          rcases h1 with h1 | h1
          · linarith [hb.1]
          · linarith [hb.2.2.1]
        · by_cases h2 : 1000 < img.rect.width ∨ 1000 < img.rect.height
          · simp only [h1, h2, if_true, if_false, Bool.false_eq_true, false_iff]
            intro hb
            rcases h2 with h2 | h2
            · linarith [hb.2.1]
            · linarith [hb.2.2.2]
          · simp only [h1, h2, if_false, true_iff]
            rw [not_or] at h1 h2
            exact ⟨not_lt.mp h1.1, not_lt.mp h2.1, not_lt.mp h1.2, not_lt.mp h2.2⟩
  · intro hbad
    unfold isEligibleImage
    by_cases hn : (img.nodeType != 1) = true
    · simp only [hn, if_true]
    · simp only [hn, Bool.false_eq_true, if_false]
      by_cases hz : (img.rect.width == 0 || img.rect.height == 0) = true
      · simp only [hz, if_true]
      · simp only [hz, Bool.false_eq_true, if_false]
        have hs : styleHidden parseFloat img.style = true := by
          simp only [Bool.or_eq_true, beq_iff_eq, not_or] at hz
          unfold styleHidden
          simp only [Bool.or_eq_true, beq_iff_eq]
          rcases hbad with hb | hb | hb | hb | hb
          · exact absurd hb hz.1
          · exact absurd hb hz.2
          · exact Or.inl (Or.inl hb)
          · exact Or.inl (Or.inr hb)
          · exact Or.inr hb
        simp only [hs, if_true]
        split_ifs <;> rfl

/-- C13 at concrete elements with display `block`, visibility `visible` and
opacity `1`: 100 by 100 and 1000 by 1000 are eligible, 50 by 50 is not. -/
theorem isEligibleImage_iff_witness :
    isEligibleImage parseOpacity
        (some ⟨1, ⟨100, 100⟩, ⟨"block".toList, "visible".toList, "1".toList⟩⟩) = true ∧
    isEligibleImage parseOpacity
        (some ⟨1, ⟨1000, 1000⟩, ⟨"block".toList, "visible".toList, "1".toList⟩⟩) = true ∧
    ¬ isEligibleImage parseOpacity
        (some ⟨1, ⟨50, 50⟩, ⟨"block".toList, "visible".toList, "1".toList⟩⟩) = true ∧
    isEligibleImage parseOpacity
        (some ⟨1, ⟨500, 400⟩, ⟨"block".toList, "visible".toList, "0".toList⟩⟩) = false :=
  ⟨((isEligibleImage_iff parseOpacity
        ⟨1, ⟨100, 100⟩, ⟨"block".toList, "visible".toList, "1".toList⟩⟩).1
      rfl (by decide) (by decide) (by decide)).mpr (by norm_num),
   ((isEligibleImage_iff parseOpacity
        ⟨1, ⟨1000, 1000⟩, ⟨"block".toList, "visible".toList, "1".toList⟩⟩).1
      rfl (by decide) (by decide) (by decide)).mpr (by norm_num),
   fun he => absurd
     (((isEligibleImage_iff parseOpacity
        ⟨1, ⟨50, 50⟩, ⟨"block".toList, "visible".toList, "1".toList⟩⟩).1
      rfl (by decide) (by decide) (by decide)).mp he).1 (by norm_num),
   (isEligibleImage_iff parseOpacity
        ⟨1, ⟨500, 400⟩, ⟨"block".toList, "visible".toList, "0".toList⟩⟩).2
      (Or.inr (Or.inr (Or.inr (Or.inr (by decide)))))⟩

/-! ## Structured-data sub-extractor -/

/-- One round of the loop over `candidates` assigns to each field the value
the object supplies, if the field is still falsy. -/
theorem jsonLdStep_eq_fill (h : Host) (r : Fields) (obj : Json) :
    jsonLdStep h r obj =
      { name := fill r.name (nameOffer h obj)
        brand := fill r.brand (brandOffer h obj)
        category := fill r.category (categoryOffer h obj) } := by
  obtain ⟨rn, rb, rc⟩ := r
  cases obj with
  | null => rfl
  | bool b => rfl
  | num q => rfl
  | str s => rfl
  | arr xs =>
    unfold jsonLdStep nameOffer brandOffer categoryOffer qualifies
    by_cases hp : isProduct h (.arr xs) = true
    · simp [hp, Json.get, asString, propOr, propTruthy, fill]
    · simp [hp, fill]
  | obj kvs =>
    unfold jsonLdStep nameOffer brandOffer categoryOffer qualifies
    by_cases hp : isProduct h (.obj kvs) = true
    · simp only [hp, Bool.not_true, Bool.false_eq_true, if_false, if_true]
      cases hname : asString ((Json.obj kvs).get "name".toList) <;>
        cases hcat : asString ((Json.obj kvs).get "category".toList) <;>
        cases hbr : propOr ((Json.obj kvs).get "brand".toList)
          ((Json.obj kvs).get "manufacturer".toList) with
        | none =>
          simp only [fill, propTruthy]
          (repeat' split) <;> simp_all
        | some b =>
          cases b with
          | null =>
            simp only [fill, propTruthy, Json.truthy]
            (repeat' split) <;> simp_all
          | bool c =>
            cases c <;> simp only [fill, propTruthy, Json.truthy] <;> (repeat' split) <;>
              simp_all
          | num q =>
            by_cases hq : q = 0 <;>
              simp only [fill, propTruthy, Json.truthy, hq] <;> (repeat' split) <;> simp_all
          | str t =>
            cases t <;> simp only [fill, propTruthy, Json.truthy] <;> (repeat' split) <;>
              simp_all
          | arr ys =>
            simp only [fill, propTruthy, Json.truthy]
            (repeat' split) <;> simp_all
          | obj ws =>
            simp only [fill, propTruthy, Json.truthy]
            (repeat' split) <;> simp_all
    · simp [hp, fill]

/-- The loop over a list of objects fills each field with the values the
objects supply for it, in order. -/
theorem foldl_jsonLdStep (h : Host) :
    ∀ (objs : List Json) (r : Fields),
      objs.foldl (jsonLdStep h) r =
        { name := fillAll r.name (objs.filterMap (nameOffer h))
          brand := fillAll r.brand (objs.filterMap (brandOffer h))
          category := fillAll r.category (objs.filterMap (categoryOffer h)) }
  | [], _ => rfl
  | obj :: objs, r => by
    rw [List.foldl_cons, foldl_jsonLdStep h objs, jsonLdStep_eq_fill]
    simp only [List.filterMap_cons]
    cases nameOffer h obj <;> cases brandOffer h obj <;> cases categoryOffer h obj <;> rfl

/-- A truthy field is never assigned again. -/
theorem fillAll_of_truthy {cur : Val} (hc : cur.truthy = true) :
    ∀ offers : List Str, fillAll cur offers = cur
  | [] => rfl
  | s :: offers => by
    have hf : fill cur (some s) = cur := by simp [fill, hc]
    show fillAll (fill cur (some s)) offers = cur
    rw [hf]
    exact fillAll_of_truthy hc offers

/-- A field holding the empty string ends with the first non-empty value
supplied, or stays the empty string. -/
theorem fillAll_empty :
    ∀ offers : List Str,
      fillAll (.str []) offers =
        match offers.find? fun s => !s.isEmpty with
        | some s => .str s
        | none => .str []
  | [] => rfl
  | s :: offers => by
    show fillAll (fill (.str []) (some s)) offers = _
    cases s with
    | nil =>
      have hf : fill (.str []) (some []) = .str [] := rfl
      rw [hf, fillAll_empty offers]
      rfl
    | cons a as =>
      have hf : fill (.str []) (some (a :: as)) = .str (a :: as) := rfl
      have ht : (Val.str (a :: as)).truthy = true := rfl
      rw [hf, fillAll_of_truthy ht]
      rfl

/-- A field that starts `null` ends as `settleField` says. -/
theorem fillAll_null :
    ∀ offers : List Str, fillAll .null offers = settleField offers
  | [] => rfl
  | s :: offers => by
    show fillAll (fill .null (some s)) offers = _
    cases s with
    | nil =>
      have hf : fill .null (some []) = .str [] := rfl
      rw [hf, fillAll_empty offers]
      unfold settleField
      simp only [List.find?_cons, List.isEmpty_nil, Bool.not_true, List.isEmpty_cons,
        Bool.false_eq_true, if_false]
    | cons a as =>
      have hf : fill .null (some (a :: as)) = .str (a :: as) := rfl
      have ht : (Val.str (a :: as)).truthy = true := rfl
      rw [hf, fillAll_of_truthy ht]
      rfl

/-- One round of the loop over `scripts` is the loop over the objects the
block contributes. -/
theorem scriptStep_eq (h : Host) (r : Fields) (script : Node) :
    scriptStep h r script = (candidatesOf h script).foldl (jsonLdStep h) r := by
  unfold scriptStep candidatesOf
  by_cases hb : (trim (textContent script)).isEmpty = true
  · simp only [hb, if_true, List.foldl_nil]
  · simp only [hb, Bool.false_eq_true, if_false]
    cases h.jsonParse (textContent script) with
    | none => rfl
    | some d => cases d <;> rfl

/-- The loop over `scripts` is the loop over all objects the blocks
contribute, in script order and then list order. -/
theorem foldl_scriptStep (h : Host) :
    ∀ (scripts : List Node) (r : Fields),
      scripts.foldl (scriptStep h) r =
        (scripts.flatMap (candidatesOf h)).foldl (jsonLdStep h) r
  | [], _ => rfl
  | script :: scripts, r => by
    rw [List.foldl_cons, foldl_scriptStep h scripts, scriptStep_eq, List.flatMap_cons,
      List.foldl_append]

/-- C14, as stated, fails: of two Product objects, the first with the name
`""` (a string) and the second with the name `Chair X`, the first supplies
the name, yet the loop ends with `Chair X`: the later object replaced the
value of the earlier one. -/
theorem jsonLd_empty_name_replaced_example :
    (emptyThenChair.filterMap (nameOffer latinHost)) = [[], "Chair X".toList] ∧
    firstOffer (emptyThenChair.filterMap (nameOffer latinHost)) = .str [] ∧
    (emptyThenChair.foldl (jsonLdStep latinHost) noFields).name = .str "Chair X".toList ∧
    (emptyThenChair.foldl (jsonLdStep latinHost) noFields).name ≠
      firstOffer (emptyThenChair.filterMap (nameOffer latinHost)) := by
  decide

/-- C14, amended: over the objects of all blocks in script order and then
list order, each field of `parseJsonLdProductFromDoc` is the first
non-empty value supplied for it by an object of a product type (name and
category: a string; brand: `brand` if truthy, else `manufacturer`, being a
string or an object with a string `name`); an empty string supplied earlier
is replaced by a later non-empty value and stays only when nothing non-empty
is supplied; a non-empty value is never replaced; the field is `null` when
nothing is supplied. -/
theorem parseJsonLdProductFromDoc_fields (h : Host) :
    (∀ objs : List Json,
      objs.foldl (jsonLdStep h) noFields =
        { name := settleField (objs.filterMap (nameOffer h))
          brand := settleField (objs.filterMap (brandOffer h))
          category := settleField (objs.filterMap (categoryOffer h)) }) ∧
    (∀ doc : Doc,
      parseJsonLdProductFromDoc h doc =
        ((doc.querySelectorAll ldJsonSel).flatMap (candidatesOf h)).foldl (jsonLdStep h)
          noFields) := by
  constructor
  · intro objs
    rw [foldl_jsonLdStep]
    simp only [noFields, fillAll_null]
  · intro doc
    unfold parseJsonLdProductFromDoc
    rw [foldl_scriptStep]
    rfl

/-- C15: the loop over the script blocks gives the same result on the
sequence with every block removed whose text is blank or does not parse; such
a block leaves the result as it is, and the blocks after it are still used;
so `parseJsonLdProductFromDoc` is the loop over the well-formed blocks of the
document. -/
theorem parseJsonLdProductFromDoc_skips_malformed (h : Host) :
    (∀ (scripts : List Node) (r : Fields),
      scripts.foldl (scriptStep h) r =
        (scripts.filter (wellFormed h)).foldl (scriptStep h) r) ∧
    (∀ (script : Node) (r : Fields),
      scriptStep h r script =
        if wellFormed h script then (candidatesOf h script).foldl (jsonLdStep h) r else r) ∧
    (∀ doc : Doc,
      parseJsonLdProductFromDoc h doc =
        ((doc.querySelectorAll ldJsonSel).filter (wellFormed h)).foldl (scriptStep h)
          noFields) := by
  have hstep : ∀ (script : Node) (r : Fields),
      scriptStep h r script =
        if wellFormed h script then (candidatesOf h script).foldl (jsonLdStep h) r else r := by
    intro script r
    rw [scriptStep_eq]
    by_cases hw : wellFormed h script = true
    · simp only [hw, if_true]
    · simp only [hw, Bool.false_eq_true, if_false]
      unfold wellFormed at hw
      unfold candidatesOf
      by_cases hb : (trim (textContent script)).isEmpty = true
      · simp only [hb, if_true, List.foldl_nil]
      · simp only [hb, Bool.not_false, Bool.true_and, Bool.not_eq_true,
          Option.not_isSome, Option.isNone_iff_eq_none, Bool.false_eq_true] at hw
        simp only [hb, Bool.false_eq_true, if_false, hw, List.foldl_nil]
  have hall : ∀ (scripts : List Node) (r : Fields),
      scripts.foldl (scriptStep h) r =
        (scripts.filter (wellFormed h)).foldl (scriptStep h) r := by
    intro scripts
    induction scripts with
    | nil => intro r; rfl
    | cons script scripts ih =>
      intro r
      rw [List.foldl_cons, List.filter_cons]
      by_cases hw : wellFormed h script = true
      · simp only [hw, if_true, List.foldl_cons]
        exact ih _
      · have hr : scriptStep h r script = r := by
          rw [hstep]
          simp only [hw, Bool.false_eq_true, if_false]
        simp only [hw, Bool.false_eq_true, if_false, hr]
        exact ih r
  exact ⟨hall, hstep, fun doc => hall _ _⟩

end Dechora
